import Mathlib

/-!
Shallow embedding of the crd-ref-docs processor (src/processor/processor.go):
the recursive, memoized type-graph resolver `processType`, the struct field
extractor `processStructFields`, the reverse-reference tracking
(`addReference` / `propagateReference`) and the assembly pipeline `Process` /
`findAPITypes`.  Go pointers to `types.Type` become addresses (indices) into an
explicit heap; the canonical table `p.types` and the reference index
`p.references` become association lists with Go-map update semantics.  The
`types` and `config` packages of the repository are not under src/; the
definitions taken from them (`typeKey`, the `Kind` enumeration, `inlineTypes`,
the exclusion predicates) are modelled from the spec and say so in their doc
comments.  Everything else is translated directly from processor.go.
-/

namespace CrdRefDocs

/-- Modelled from the spec (§3 data model; the `types.Kind` enumeration lives in
the repository's `types` package, which is not under src/): the kind tag of a
type node, one of Basic, Struct, Alias, Pointer, Slice/Array, Map, Interface,
Unsupported, Unknown.  `Array` is listed separately because the renderer
(src/renderer/asciidoctor.go) distinguishes `types.ArrayKind` from
`types.SliceKind`.  `unset` stands for the Go zero value of the enumeration in
a freshly allocated `types.Type`, before any dispatch branch assigns a kind. -/
inductive Kind where
  | unset
  | Basic
  | Struct
  | Alias
  | Pointer
  | Slice
  | Array
  | Map
  | Interface
  | Unsupported
  | Unknown
deriving DecidableEq, Repr

/-- schema.GroupVersionKind value attached to root objects. -/
structure GVK where
  group : String
  version : String
  kind : String
deriving DecidableEq, Repr

/-- Heap address standing for a Go pointer `*types.Type`. -/
abbrev Addr := Nat

/-- types.Field: one struct member of the produced graph. -/
structure Field where
  name : String
  doc : String
  type : Addr
  embedded : Bool
  inlined : Bool
deriving DecidableEq, Repr

/-- types.Type: one node of the produced type graph.  Pointer-valued fields of
the Go struct (UnderlyingType, KeyType, ValueType, GVK) become `Option Addr` /
`Option GVK`; References is the materialized list built by `Process`. -/
structure TypeNode where
  id : String := ""
  name : String := ""
  pkg : String := ""
  doc : String := ""
  kind : Kind := .unset
  underlying : Option Addr := none
  keyType : Option Addr := none
  valueType : Option Addr := none
  fields : List Field := []
  gvk : Option GVK := none
  imported : Bool := false
  references : List Addr := []
deriving DecidableEq, Repr

/-- Modelled from the spec (§4.1 identity; the `types.Key` function lives in the
repository's `types` package, which is not under src/): the canonical identity
string of a node, a stable string derived from the node's package-qualified
name; a node with an empty package is keyed by its bare name. -/
def typeKey (t : TypeNode) : String :=
  if t.pkg = "" then t.name else t.pkg ++ "." ++ t.name

/-- Association-list lookup with Go-map semantics (first binding wins; the
insert below keeps at most one binding per key). -/
def lookupA {κ α : Type} [DecidableEq κ] : List (κ × α) → κ → Option α
  | [], _ => none
  | (k, v) :: rest, key => if k = key then some v else lookupA rest key

/-- Association-list update with Go-map semantics: `m[key] = v` overwrites an
existing binding in place, otherwise appends a new one. -/
def insertA {κ α : Type} [DecidableEq κ] : List (κ × α) → κ → α → List (κ × α)
  | [], key, v => [(key, v)]
  | (k, w) :: rest, key, v =>
    if k = key then (k, v) :: rest else (k, w) :: insertA rest key v

/-- The reverse-reference index `p.references`: child identity → set of parent
identities, the set kept as a duplicate-free list. -/
abbrev Refs := List (String × List String)

/-- Set insertion for a parent-identity set (`map[string]struct\x7b\x7d`). -/
def addParent (l : List String) (p : String) : List String :=
  if p ∈ l then l else l ++ [p]

/-- `p.references[key][parentKey] = struct\x7b\x7d\x7b\x7d` with the nil-map
initialisation of processor.go lines 464-468. -/
def insertRef (refs : Refs) (childKey parentKey : String) : Refs :=
  match lookupA refs childKey with
  | none => refs ++ [(childKey, [parentKey])]
  | some ps => insertA refs childKey (addParent ps parentKey)

/-- Heap update through a pointer: mutate the node at address `a` in place. -/
def modifyNode (h : List TypeNode) (a : Addr) (f : TypeNode → TypeNode) :
    List TypeNode :=
  match h[a]? with
  | some n => h.set a (f n)
  | none => h

/-- Character-list prefix test (strings.HasPrefix). -/
def listStartsWith : List Char → List Char → Bool
  | _, [] => true
  | [], _ :: _ => false
  | c :: cs, p :: ps => c = p && listStartsWith cs ps

/-- strings.HasPrefix(s, p). -/
def startsWithS (s p : String) : Bool :=
  listStartsWith s.toList p.toList

/-- strings.Split(s, sep) for a one-character separator (the processor only
splits on ","): like Go, splitting the empty string yields one empty part. -/
def splitOnChar (c : Char) : List Char → List (List Char)
  | [] => [[]]
  | x :: rest =>
    let r := splitOnChar c rest
    if x = c then [] :: r
    else
      match r with
      | h :: t => (x :: h) :: t
      | [] => [[x]]

/-- strings.TrimLeft(s, "*[]") of mkType (processor.go line 420). -/
def trimStarBracket (s : String) : String :=
  String.mk (s.toList.dropWhile (fun c => c = '*' ∨ c = '[' ∨ c = ']'))

/-- strings.LastIndexByte(name, '.') split of mkType (processor.go lines
430-434): `some (before, after)` when a dot occurs, split at the last dot. -/
def lastDotSplit (s : String) : Option (String × String) :=
  let cs := s.toList
  if '.' ∈ cs then
    let after := (cs.reverse.takeWhile (fun c => ¬ c = '.')).reverse
    let before := cs.take (cs.length - after.length - 1)
    some (String.mk before, String.mk after)
  else none

/-- strings.TrimSuffix(s, "\n") used for raw docstrings (processor.go 279). -/
def trimNewlineSuffix (s : String) : String :=
  match s.toList.reverse with
  | c :: rest => if c = '\n' then String.mk rest.reverse else s
  | [] => s

/-- The raw type descriptor surfaced by go/types (`gotypes.Type`), as consumed
by processType's dispatch (processor.go lines 291-360).  A named type carries
its defining package path and name; its underlying representation
(`t.Underlying()`) is obtained from the world environment below, which makes
cyclic (self-referential) type definitions representable.  Literal struct and
interface types carry the interior of their printed form, since processType
only ever inspects their printed string.  `other` stands for any descriptor
hitting the default branch (chan, func, ...), carrying its absolute and
package-relative printed forms; `null` is the nil descriptor of the
`case nil` branch. -/
inductive GoType where
  | named (pkgPath : String) (name : String)
  | structLit (body : String)
  | pointer (elem : GoType)
  | slice (elem : GoType)
  | mapType (key : GoType) (value : GoType)
  | basic (name : String)
  | interfaceLit (body : String)
  | other (absForm : String) (relForm : String)
  | null
deriving DecidableEq, Repr

/-- `t.String()`: the fully package-qualified printed form of a descriptor
(go/types prints named types as `path.Name`, pointers as `*T`, slices as
`[]T`, maps as `map[K]V`, struct literals as `struct\x7b...\x7d`). -/
def GoType.absStr : GoType → String
  | .named pkgPath name => if pkgPath = "" then name else pkgPath ++ "." ++ name
  | .structLit body => "struct\x7b" ++ body ++ "\x7d"
  | .pointer e => "*" ++ e.absStr
  | .slice e => "[]" ++ e.absStr
  | .mapType k v => "map[" ++ k.absStr ++ "]" ++ v.absStr
  | .basic name => name
  | .interfaceLit body => "interface\x7b" ++ body ++ "\x7d"
  | .other absForm _ => absForm
  | .null => "<nil>"

/-- `gotypes.TypeString(t, gotypes.RelativeTo(pkg.Types))` (processor.go lines
418-419): like `absStr` but names defined in the current package print
unqualified. -/
def GoType.relStr (cur : String) : GoType → String
  | .named pkgPath name =>
    if pkgPath = "" ∨ pkgPath = cur then name else pkgPath ++ "." ++ name
  | .structLit body => "struct\x7b" ++ body ++ "\x7d"
  | .pointer e => "*" ++ e.relStr cur
  | .slice e => "[]" ++ e.relStr cur
  | .mapType k v => "map[" ++ k.relStr cur ++ "]" ++ v.relStr cur
  | .basic name => name
  | .interfaceLit body => "interface\x7b" ++ body ++ "\x7d"
  | .other _ relForm => relForm
  | .null => "<nil>"

/-- One declared struct member as surfaced by the provider
(`markers.FieldInfo` plus the per-field lookups processor.go performs):
declared name (empty for an embedded member), doc text, the value of the
`json` struct tag if any (`f.Tag.Lookup("json")`), and the go/types descriptor
of the field's type (`pkg.TypesInfo.TypeOf(f.RawField.Type)`, `none` when that
lookup fails). -/
structure RawField where
  name : String := ""
  doc : String := ""
  jsonTag : Option String := none
  fieldType : Option GoType := none
deriving DecidableEq, Repr

/-- The provider's per-type information (`markers.TypeInfo` as used by
processor.go): doc comment, the raw declaration's verbatim doc text when a raw
declaration is available (`info.RawDecl.Doc.Text()`, `none` when
`info.RawDecl == nil`), and the declared members. -/
structure TypeInfo where
  doc : String := ""
  rawDoc : Option String := none
  fields : List RawField := []
deriving DecidableEq, Repr

/-- One type declaration of a scanned package as iterated by
`markers.EachType` (processor.go lines 177-211): the declared name, whether
the declaration is exported (covering the `info.RawSpec.Name == nil` guard),
the descriptor `pkg.TypesInfo.TypeOf(info.RawSpec.Name)` (GoType.null for a
nil result), and whether the `kubebuilder:object:root` marker is present. -/
structure PkgDecl where
  name : String
  exported : Bool := true
  typ : GoType := .null
  rootMarker : Bool := false
deriving DecidableEq, Repr

/-- A loaded package (`loader.Package`) together with everything the processor
asks the provider about it: import paths available from `pkg.Imports()`, the
per-type info of `p.parser.LookupType`, the `groupName` / `versionName`
package markers, the package documentation (the output of
`extractPkgDocumentation`, whose comment-filtering is textual and orthogonal
to the claims, hence carried as data), and the declarations `markers.EachType`
iterates, in iteration order. -/
structure Pkg where
  path : String
  shortName : String := ""
  imports : List String := []
  typeInfos : List (String × TypeInfo) := []
  groupName : Option String := none
  versionName : Option String := none
  pkgDoc : String := ""
  decls : List PkgDecl := []
deriving DecidableEq, Repr

/-- The loaded world: the packages reachable by the loader (roots and
importable packages), the root package paths scanned by findAPITypes in scan
order, and the `Underlying()` representation of every named type, keyed by
(package path, name). -/
structure World where
  pkgs : List Pkg := []
  roots : List String := []
  underlying : List ((String × String) × GoType) := []
deriving Repr

/-- Package lookup by path among the loaded packages. -/
def getPkg (w : World) (path : String) : Option Pkg :=
  w.pkgs.find? (fun p => p.path = path)

/-- `pkg.Imports()[path]` (processor.go lines 298-299): the imported package,
present only when `pkg` imports `path` and the loader knows the package. -/
def findImport (w : World) (pkg : Pkg) (path : String) : Option Pkg :=
  if path ∈ pkg.imports then getPkg w path else none

/-- `t.Underlying()` of a named type, from the world environment; a total
world supplies the underlying representation of every named type it mentions
(go/types guarantees one), `GoType.null` is the degenerate fallback. -/
def underlyingOf (w : World) (pkgPath name : String) : GoType :=
  match w.underlying.find? (fun e => e.1 = (pkgPath, name)) with
  | some e => e.2
  | none => .null

/-- The configuration surface the processor consumes.  The exclusion
predicates below are modelled from the spec (§6: `excludedTypes`,
`excludedFields`, `excludedNamespaceVersions`; the compiled config lives in
the repository's `config` package, which is not under src/) with exact-match
identity patterns. -/
structure Config where
  maxDepth : Nat
  useRawDocstring : Bool := false
  excludedTypes : List String := []
  excludedFields : List (String × String) := []
  excludedGroupVersions : List String := []
deriving Repr

/-- Modelled from the spec: `p.shouldIgnoreType(key)` of the missing compiled
config — does the type identity match an exclusion pattern. -/
def shouldIgnoreType (cfg : Config) (key : String) : Bool :=
  cfg.excludedTypes.contains key

/-- Modelled from the spec: `p.shouldIgnoreField(typeKey, fieldName)` of the
missing compiled config. -/
def shouldIgnoreField (cfg : Config) (typeK fieldName : String) : Bool :=
  cfg.excludedFields.contains (typeK, fieldName)

/-- Modelled from the spec: `p.shouldIgnoreGroupVersion(gv)` of the missing
compiled config. -/
def shouldIgnoreGroupVersion (cfg : Config) (gv : String) : Bool :=
  cfg.excludedGroupVersions.contains gv

/-- Per-group/version accumulator (`groupVersionInfo`, processor.go 44-50). -/
structure GVInfo where
  group : String
  version : String
  doc : String := ""
  kinds : List String := []
  typesM : List (String × Addr) := []
deriving DecidableEq, Repr

/-- The processor's run state (`processor`, processor.go 139-146): the node
heap (arena standing for the Go heap), the canonical table `p.types`, the
reverse-reference index `p.references` and the discovered group/version
accumulators `p.groupVersions`. -/
structure PState where
  heap : List TypeNode := []
  table : List (String × Addr) := []
  refs : Refs := []
  gvs : List ((String × String) × GVInfo) := []
deriving DecidableEq, Repr

/-- In-place mutation of the node a heap address points at. -/
def setNode (st : PState) (a : Addr) (f : TypeNode → TypeNode) : PState :=
  { st with heap := modifyNode st.heap a f }

/-- mkType (processor.go lines 417-438): build the fresh node for a
descriptor — ID from `t.String()`, name from the package-relative form with
leading `*`/`[`/`]` trimmed, and the imported-type split at the last dot for
non-struct names. -/
def mkType (pkg : Pkg) (t : GoType) : TypeNode :=
  let relative := t.relStr pkg.path
  let name := trimStarBracket relative
  let base : TypeNode := { id := t.absStr, name := name, pkg := pkg.path }
  let structType := startsWithS name "struct"
  if structType then base
  else
    match lastDotSplit name with
    | some (before, after) => { base with name := after, pkg := before, imported := true }
    | none => base

/-- processor.go lines 273-281: attach doc text from the provider's
documentation lookup, preferring the raw declaration text (with one trailing
newline trimmed) when `useRawDocstring` is set and a raw declaration exists. -/
def attachDoc (cfg : Config) (pkg : Pkg) (td : TypeNode) : TypeNode :=
  match lookupA pkg.typeInfos td.name with
  | none => td
  | some info =>
    let d := info.doc
    let d := if cfg.useRawDocstring then
               match info.rawDoc with
               | some raw => trimNewlineSuffix raw
               | none => d
             else d
    { td with doc := d }

/-- addReference (processor.go lines 452-470), with an explicit fuel bound on
the unwrap recursion: the child is unwrapped through Pointer and Slice nodes
(one layer per step) and through Map nodes (key then value), and the parent's
identity is recorded in the child's back-reference set only for Alias and
Struct kinds.  The resolver only builds heaps whose underlying/key/value
edges point at nodes completed strictly earlier, so the chains are acyclic
and shorter than the heap; the fuel `heap.length + 1` supplied by
`addReference` below therefore never runs out (the Go original recurses
without a bound and would diverge on a cyclic chain). -/
def addReferenceF (h : List TypeNode) (parentKey : String) :
    Nat → Option Addr → Refs → Refs
  | _, none, refs => refs
  | 0, some _, refs => refs
  | fuel + 1, some c, refs =>
    match h[c]? with
    | none => refs
    | some node =>
      match node.kind with
      | .Slice => addReferenceF h parentKey fuel node.underlying refs
      | .Pointer => addReferenceF h parentKey fuel node.underlying refs
      | .Map =>
        addReferenceF h parentKey fuel node.valueType
          (addReferenceF h parentKey fuel node.keyType refs)
      | .Alias => insertRef refs (typeKey node) parentKey
      | .Struct => insertRef refs (typeKey node) parentKey
      | _ => refs

/-- `p.addReference(parent, child)` acting on the run state: the parent's
identity is read through the parent pointer at call time (processor.go line
468). -/
def addReference (st : PState) (parentAddr : Addr) (child : Option Addr) :
    PState :=
  match st.heap[parentAddr]? with
  | none => st
  | some pn =>
    { st with
      refs := addReferenceF st.heap (typeKey pn) (st.heap.length + 1) child st.refs }

/-- processor.go lines 362-363: insert the (possibly mutated) node into the
canonical table keyed by its current identity, and return it. -/
def finishInsert (st : PState) (a : Addr) : Option Addr × PState :=
  match st.heap[a]? with
  | some n => (some a, { st with table := insertA st.table (typeKey n) a })
  | none => (some a, st)

/-- Heap allocation: append a fresh node, whose address is the old length. -/
def pushNode (st : PState) (n : TypeNode) : PState :=
  { st with heap := st.heap ++ [n] }

/-- Allocate a node and immediately insert it into the canonical table
(the non-recursive dispatch branches of processType, e.g. Basic/Interface). -/
def allocFinish (st : PState) (n : TypeNode) : Option Addr × PState :=
  finishInsert (pushNode st n) st.heap.length

/-- processor.go lines 332-334 / 347-348: a Pointer/Slice node takes its
package from its underlying node, a Map node from its value node, once that
is resolved and non-nil. -/
def inheritPkg (st : PState) (a : Addr) (u : Option Addr) : PState :=
  match u with
  | some ua =>
    match st.heap[ua]? with
    | some un => setNode st a (fun n => { n with pkg := un.pkg })
    | none => st
  | none => st

/-- Alias epilogue (processor.go lines 309-310): store the resolved
underlying type on the alias node and record the child → parent reference. -/
def finishAlias (res : Option Addr × PState) (a : Addr) : Option Addr × PState :=
  let st := setNode res.2 a (fun n => { n with underlying := res.1 })
  finishInsert (addReference st a res.1) a

/-- Pointer/Slice epilogue (processor.go lines 330-341): store the resolved
element type and inherit its package. -/
def finishIndirect (res : Option Addr × PState) (a : Addr) :
    Option Addr × PState :=
  let st := setNode res.2 a (fun n => { n with underlying := res.1 })
  finishInsert (inheritPkg st a res.1) a

/-- Map epilogue (processor.go lines 346-349): store the resolved value type
and inherit its package. -/
def finishMap (vres : Option Addr × PState) (a : Addr) : Option Addr × PState :=
  let st := setNode vres.2 a (fun n => { n with valueType := vres.1 })
  finishInsert (inheritPkg st a vres.1) a

/-- processor.go lines 384-389: the member name after the `json` tag override
— the tag's first comma-separated component replaces the declared name when
the tag is present and that component is non-empty. -/
def tagName (f : RawField) : String :=
  match f.jsonTag with
  | some tagVal =>
    match splitOnChar ',' tagVal.toList with
    | a0 :: _ => if a0.isEmpty then f.name else String.mk a0
    | [] => f.name
  | none => f.name

/-- processor.go lines 378-405 (naming part): the field record produced for a
declared member whose type resolved to address `c` with resolved type name
`tyName` — embedded iff the declared name is empty, name overridden by the
tag, and an embedded member with no tag-provided name is inlined and takes
the resolved type's name as display name. -/
def buildField (f : RawField) (c : Addr) (tyName : String) : Field :=
  let embedded := f.name == ""
  let nm := tagName f
  { name := if embedded && nm == "" then tyName else nm
    doc := f.doc
    type := c
    embedded := embedded
    inlined := embedded && nm == "" }

/-- processor.go lines 397-414 (everything after the field type resolved):
force non-imported rendering on the resolved node, apply the naming rules,
drop excluded fields before appending, and register the
field-type → struct reference edge for accepted fields. -/
def fieldPost (cfg : Config) (pAddr : Addr) (parentKeyS : String)
    (f : RawField) (res : Option Addr × PState) : PState :=
  match res.1 with
  | none => res.2
  | some c =>
    let st2 := setNode res.2 c (fun n => { n with imported := false })
    let tyName :=
      match st2.heap[c]? with
      | some n => n.name
      | none => ""
    let fd := buildField f c tyName
    if shouldIgnoreField cfg parentKeyS fd.name then st2
    else
      let st3 := setNode st2 pAddr (fun n => { n with fields := n.fields ++ [fd] })
      addReference st3 pAddr (some c)

mutual

/-- processType (processor.go lines 266-364): memo lookup on the identity of
the fresh `mkType` node, doc attachment, the depth cutoff, then dispatch on
the descriptor's native kind.  Returns the resulting node's address (`none`
exactly in the absorbed-struct case) and the updated state. -/
def processType (cfg : Config) (w : World) (pkg : Pkg) (parent : Option Addr)
    (t : GoType) (depth : Nat) (st : PState) : Option Addr × PState :=
  let td0 := mkType pkg t
  match lookupA st.table (typeKey td0) with
  | some processed => (some processed, st)
  | none =>
    let td := attachDoc cfg pkg td0
    if hd : depth > cfg.maxDepth then
      (some st.heap.length, pushNode st { td with kind := .Unknown })
    else
      match t with
      | .null => allocFinish st { td with kind := .Unknown }
      | .named pkgPath nm =>
        match (if pkg.path = td.pkg then some pkg else findImport w pkg td.pkg) with
        | none => (some st.heap.length, pushNode st td)
        | some pkg' =>
          finishAlias
            (processType cfg w pkg' (some st.heap.length)
              (underlyingOf w pkgPath nm) (depth + 1)
              (pushNode st { td with kind := .Alias }))
            st.heap.length
      | .structLit _body =>
        match parent with
        | some pAddr =>
          let st2 := setNode (pushNode st td) pAddr
            (fun n => { n with kind := .Struct })
          match st2.heap[pAddr]? with
          | some pn =>
            match lookupA pkg.typeInfos pn.name with
            | some info =>
              (none,
                processStructFields cfg w pkg pAddr (typeKey pn) info.fields
                  depth st2)
            | none => (none, st2)
          | none => (none, st2)
        | none =>
          allocFinish st { td with name := "", pkg := "", kind := .Unsupported }
      | .pointer e =>
        finishIndirect
          (processType cfg w pkg (some st.heap.length) e (depth + 1)
            (pushNode st { td with kind := .Pointer }))
          st.heap.length
      | .slice e =>
        finishIndirect
          (processType cfg w pkg (some st.heap.length) e (depth + 1)
            (pushNode st { td with kind := .Slice }))
          st.heap.length
      | .mapType k v =>
        let kres := processType cfg w pkg (some st.heap.length) k (depth + 1)
          (pushNode st { td with kind := .Map })
        finishMap
          (processType cfg w pkg (some st.heap.length) v (depth + 1)
            (setNode kres.2 st.heap.length (fun n => { n with keyType := kres.1 })))
          st.heap.length
      | .basic _ => allocFinish st { td with kind := .Basic, pkg := "" }
      | .interfaceLit _ => allocFinish st { td with kind := .Interface }
      | .other _ _ => allocFinish st { td with kind := .Unsupported }
termination_by (cfg.maxDepth + 2 - depth, if parent.isSome then 3 else 0, 0)

/-- processStructFields (processor.go lines 366-415): process the declared
members in declaration order, threading the run state.  `parentKeyS` is the
parent's identity computed once at entry (line 369). -/
def processStructFields (cfg : Config) (w : World) (pkg : Pkg) (pAddr : Addr)
    (parentKeyS : String) (fs : List RawField) (depth : Nat) (st : PState) :
    PState :=
  match fs with
  | [] => st
  | f :: rest =>
    processStructFields cfg w pkg pAddr parentKeyS rest depth
      (processField cfg w pkg pAddr parentKeyS f depth st)
termination_by (cfg.maxDepth + 2 - depth, 2, fs.length)

/-- One iteration of the field loop (processor.go lines 371-414): skip members
whose type the provider cannot determine, resolve the field type at the same
depth with no parent, then `fieldPost`. -/
def processField (cfg : Config) (w : World) (pkg : Pkg) (pAddr : Addr)
    (parentKeyS : String) (f : RawField) (depth : Nat) (st : PState) : PState :=
  match f.fieldType with
  | none => st
  | some t =>
    fieldPost cfg pAddr parentKeyS f (processType cfg w pkg none t depth st)
termination_by (cfg.maxDepth + 2 - depth, 1, 0)
decreasing_by
  all_goals simp_wf
  all_goals
    first
      | exact Prod.Lex.left _ _ (by omega)
      | exact Prod.Lex.right _ (Prod.Lex.left _ _ (by omega))

end

/-- processor.go lines 440-450 (propagateReference): every child whose
parent-set contains the original type's identity also gets the additional
type's identity inserted into that set. -/
def propagateReference (refs : Refs) (originalKey additionalKey : String) :
    Refs :=
  refs.map (fun e =>
    if originalKey ∈ e.2 then (e.1, addParent e.2 additionalKey) else e)

/-- Modelled from the spec: `p.types.InlineTypes(p.propagateReference)`
(processor.go line 64) — the `InlineTypes` method lives in the repository's
`types` package, which is not under src/.  Per spec §3 an `inlined` field's
own fields are promoted into the parent, and per §4.4 this type-merging pass
drives `propagateReference` so that the merged-in type inherits the reference
history: for each node of the canonical table, every inlined field is
replaced by its type's fields and `propagateReference(fieldType, node)` is
invoked. -/
def inlineTypes (st : PState) : PState :=
  st.table.foldl
    (fun st e =>
      match st.heap[e.2]? with
      | none => st
      | some n =>
        let step := n.fields.foldl
          (fun (acc : List Field × Refs) fd =>
            if fd.inlined then
              match st.heap[fd.type]? with
              | some ft =>
                (acc.1 ++ ft.fields,
                  propagateReference acc.2 (typeKey ft) (typeKey n))
              | none => (acc.1 ++ [fd], acc.2)
            else (acc.1 ++ [fd], acc.2))
          ([], st.refs)
        { setNode st e.2 (fun m => { m with fields := step.1 }) with
            refs := step.2 })
    st

/-- One parent identity of the materialization loop (processor.go lines
73-77): a parent identity that resolves in the canonical table appends its
node to the child's References. -/
def matAdd (a : Addr) (st : PState) (rk : String) : PState :=
  match lookupA st.table rk with
  | some ra =>
    setNode st a (fun n => { n with references := n.references ++ [ra] })
  | none => st

/-- One entry of the reverse index (processor.go lines 66-72): the child
identity must be in the canonical table (else the run fails with "type not
loaded"), then every recorded parent is processed. -/
def matStep (st : PState) (e : String × List String) : Except String PState :=
  match lookupA st.table e.1 with
  | none => Except.error ("type not loaded: " ++ e.1)
  | some a => Except.ok (e.2.foldl (matAdd a) st)

/-- The loop of processor.go lines 66-78 over the reverse index's entries,
with Go's early error return. -/
def matFold : List (String × List String) → PState → Except String PState
  | [], st => .ok st
  | e :: l, st =>
    match matStep st e with
    | .error s => .error s
    | .ok st2 => matFold l st2

/-- processor.go lines 66-78: materialize each node's References list from the
reverse index. -/
def materializeReferences (st : PState) : Except String PState :=
  matFold st.refs st

/-- schema.GroupVersion.String() of apimachinery (third-party collaborator):
`group/version`, or just the version when the group is empty. -/
def gvString (group version : String) : String :=
  if group = "" then version else group ++ "/" ++ version

/-- processor.go lines 217-244 (extractGroupVersionIfExists): a package
without the groupName marker yields none; the version defaults to the
package's short name unless the versionName marker overrides it. -/
def extractGroupVersionIfExists (pkg : Pkg) : Option GVInfo :=
  match pkg.groupName with
  | none => none
  | some g =>
    some { group := g,
           version :=
             match pkg.versionName with
             | some v => v
             | none => pkg.shortName,
           doc := pkg.pkgDoc }

/-- processor.go lines 189-192: fetch the declared type from the canonical
table, resolving it at depth 0 when absent. -/
def declResolve (cfg : Config) (w : World) (pkg : Pkg) (key : String)
    (d : PkgDecl) (st : PState) : Option Addr × PState :=
  match lookupA st.table key with
  | some a => (some a, st)
  | none => processType cfg w pkg none d.typ 0 st

/-- Update the group/version accumulator stored under a key. -/
def modifyGV (st : PState) (key : String × String) (f : GVInfo → GVInfo) :
    PState :=
  match lookupA st.gvs key with
  | some gvi => { st with gvs := insertA st.gvs key (f gvi) }
  | none => st

/-- processor.go lines 195-209 (after the declared type is loaded): register
the node in the group's type mapping unless the node is nil or its kind is
Basic; for root-marked declarations record the kind name and attach the
GroupVersionKind to the node. -/
def declPost (key : String × String) (d : PkgDecl) (res : Option Addr × PState) :
    PState :=
  let st := res.2
  let st :=
    match res.1 with
    | some a =>
      match st.heap[a]? with
      | some n =>
        if n.kind ≠ .Basic then
          modifyGV st key (fun g => { g with typesM := insertA g.typesM d.name a })
        else st
      | none => st
    | none => st
  if d.rootMarker then
    let st := modifyGV st key (fun g =>
      { g with kinds := if d.name ∈ g.kinds then g.kinds else g.kinds ++ [d.name] })
    match res.1 with
    | some a => setNode st a (fun n => { n with gvk := some ⟨key.1, key.2, d.name⟩ })
    | none => st
  else st

/-- processor.go lines 177-211: one markers.EachType callback — skip
user-excluded and unexported declarations, then load and register the type. -/
def processDecl (cfg : Config) (w : World) (pkg : Pkg) (key : String × String)
    (d : PkgDecl) (st : PState) : PState :=
  if shouldIgnoreType cfg (pkg.path ++ "." ++ d.name) then st
  else if ¬ d.exported then st
  else declPost key d (declResolve cfg w pkg (pkg.path ++ "." ++ d.name) d st)

/-- processor.go lines 156-212: handle one loaded package — skip packages
without a group/version or with an excluded one, register the accumulator for
newly seen group/versions (merging with an existing one otherwise), and
process each declaration in order. -/
def findPkg (cfg : Config) (w : World) (st : PState) (pkg : Pkg) : PState :=
  match extractGroupVersionIfExists pkg with
  | none => st
  | some gvi =>
    if shouldIgnoreGroupVersion cfg (gvString gvi.group gvi.version) then st
    else
      let key := (gvi.group, gvi.version)
      let st :=
        if (lookupA st.gvs key).isSome then st
        else { st with gvs := insertA st.gvs key gvi }
      pkg.decls.foldl (fun st d => processDecl cfg w pkg key d st) st

/-- processor.go lines 148-215 (findAPITypes): scan the loaded root
packages. -/
def findAPITypes (cfg : Config) (w : World) (st : PState) : PState :=
  (w.roots.filterMap (getPkg w)).foldl (findPkg cfg w) st

/-- types.GroupVersionDetails as produced by Process: the sorted output item
of one group/version. -/
structure GVDetails where
  group : String
  version : String
  doc : String := ""
  kinds : List String := []
  typesM : List (String × Addr) := []
deriving DecidableEq, Repr

/-- processor.go lines 88-101, one registered type of a group/version: drop
it when its identity matches the exclusion policy, and otherwise store the
canonical table's node for that identity, failing the run ("Type not
loaded") when the heap or the table misses it. -/
def assembleKeep (cfg : Config) (st : PState) (acc : List (String × Addr))
    (nm : String) (t : TypeNode) : Except String (List (String × Addr)) :=
  if shouldIgnoreType cfg (typeKey t) then Except.ok acc
  else
    match lookupA st.table (typeKey t) with
    | some a => Except.ok (insertA acc nm a)
    | none => Except.error ("Type not loaded: " ++ typeKey t)

/-- The heap read of lines 89-90 in front of `assembleKeep`. -/
def assembleStep (cfg : Config) (st : PState) (acc : List (String × Addr))
    (e : String × Addr) : Except String (List (String × Addr)) :=
  match st.heap[e.2]? with
  | none => Except.error "Type not loaded"
  | some t => assembleKeep cfg st acc e.1 t

/-- The loop of processor.go lines 88-101 over a group/version's registered
types, with Go's early (fatal) exit. -/
def assembleFold (cfg : Config) (st : PState) :
    List (String × Addr) → List (String × Addr) →
      Except String (List (String × Addr))
  | [], acc => .ok acc
  | e :: l, acc =>
    match assembleStep cfg st acc e with
    | .error s => .error s
    | .ok acc2 => assembleFold cfg st l acc2

/-- processor.go lines 83-103: build one GroupVersionDetails — copy the
group/version, doc and kinds, and filter the registered types through
`assembleStep`. -/
def assembleGV (cfg : Config) (st : PState) (gvi : GVInfo) :
    Except String GVDetails :=
  match assembleFold cfg st gvi.typesM [] with
  | .error s => .error s
  | .ok ts =>
    .ok { group := gvi.group, version := gvi.version, doc := gvi.doc,
          kinds := gvi.kinds, typesM := ts }

/-- The comparison of processor.go lines 107-117: by Group ascending, then
Version ascending. -/
def gvLess (a b : GVDetails) : Bool :=
  if a.group < b.group then true
  else if a.group = b.group then decide (a.version < b.version)
  else false

/-- Stable insertion of one element (sort.SliceStable keeps the original
order of elements the comparison ties). -/
def insertSortedGV (x : GVDetails) : List GVDetails → List GVDetails
  | [] => [x]
  | y :: rest => if gvLess x y then x :: y :: rest else y :: insertSortedGV x rest

/-- sort.SliceStable of processor.go lines 107-117 as a stable insertion
sort. -/
def sortGVs (l : List GVDetails) : List GVDetails :=
  l.foldl (fun acc x => insertSortedGV x acc) []

/-- Process (processor.go lines 52-120), with the out-of-scope config
compilation and package loading abstracted into `Config` and `World`: find
the API types, run the (spec-modelled) inline-types pass driving
propagateReference, materialize the reference lists, assemble the
per-group/version details with exclusion filtering, and sort the output by
(group, version).  `gvFold` is the loop of lines 82-104 over the discovered
group/versions, `runPost` everything after findAPITypes and the inline
pass. -/
def gvFold (cfg : Config) (st : PState) :
    List ((String × String) × GVInfo) → List GVDetails →
      Except String (List GVDetails)
  | [], acc => .ok acc
  | e :: l, acc =>
    match assembleGV cfg st e.2 with
    | .error s => .error s
    | .ok d => gvFold cfg st l (acc ++ [d])

def runAssemble (cfg : Config) (st : PState) :
    Except String (List GVDetails × PState) :=
  match gvFold cfg st st.gvs [] with
  | .error e => .error e
  | .ok ds => .ok (sortGVs ds, st)

def runPost (cfg : Config) (st : PState) :
    Except String (List GVDetails × PState) :=
  match materializeReferences st with
  | .error e => .error e
  | .ok st => runAssemble cfg st

/-- Process, assembled from the pieces above. -/
def runProcess (cfg : Config) (w : World) :
    Except String (List GVDetails × PState) :=
  runPost cfg (inlineTypes (findAPITypes cfg w {}))

/-- Heap evolution discipline of the resolver relative to a base bound: the
heap only grows, and every node below the base either survives unchanged or
has (only) its imported flag cleared. -/
def frameOK (base : Nat) (h h' : List TypeNode) : Prop :=
  h.length ≤ h'.length ∧
  ∀ a n, a < base → h[a]? = some n →
    h'[a]? = some n ∨ h'[a]? = some { n with imported := false }


/-! ## Helper lemmas -/


theorem getSome_append {l l' : List TypeNode} {a : Nat} {n : TypeNode}
    (h : l[a]? = some n) : (l ++ l')[a]? = some n := by
  rw [List.getElem?_append, if_pos (List.getElem?_eq_some.mp h).1]; exact h

theorem lookupA_insertA_self {κ α : Type} [DecidableEq κ]
    (l : List (κ × α)) (k : κ) (v : α) : lookupA (insertA l k v) k = some v := by
  induction l with
  | nil => simp [insertA, lookupA]
  | cons e rest ih =>
    by_cases h : e.1 = k
    · simp [insertA, h, lookupA]
    · simp [insertA, h, lookupA, ih]

theorem frameOK_refl (base : Nat) (h : List TypeNode) : frameOK base h h :=
  ⟨le_refl _, fun _ _ _ hget => Or.inl hget⟩

theorem frameOK_trans {base : Nat} {h1 h2 h3 : List TypeNode}
    (a : frameOK base h1 h2) (b : frameOK base h2 h3) : frameOK base h1 h3 := by
  refine ⟨le_trans a.1 b.1, fun x n hx hget => ?_⟩
  rcases a.2 x n hx hget with h | h
  · exact b.2 x n hx h
  · rcases b.2 x _ hx h with h' | h'
    · exact Or.inr h'
    · exact Or.inr h'

theorem frameOK_push (base : Nat) (h : List TypeNode) (x : TypeNode) :
    frameOK base h (h ++ [x]) := by
  refine ⟨by simp, fun a n _ hget => Or.inl (getSome_append hget)⟩

theorem frameOK_pushNode (base : Nat) (st : PState) (x : TypeNode)
    : frameOK base st.heap (pushNode st x).heap := frameOK_push base st.heap x

theorem frameOK_modify_ge {base c : Nat} (h : List TypeNode)
    (f : TypeNode → TypeNode) (hc : base ≤ c) :
    frameOK base h (modifyNode h c f) := by
  unfold modifyNode
  cases hg : h[c]? with
  | none => exact frameOK_refl _ _
  | some n =>
    refine ⟨by simp, fun a m ha hget => Or.inl ?_⟩
    rw [List.getElem?_set_ne (by omega)]; exact hget

theorem frameOK_setNode_ge {base c : Nat} (st : PState)
    (f : TypeNode → TypeNode) (hc : base ≤ c) :
    frameOK base st.heap (setNode st c f).heap := frameOK_modify_ge st.heap f hc

theorem frameOK_setNode_imported (base c : Nat) (st : PState) :
    frameOK base st.heap
      (setNode st c (fun n => { n with imported := false })).heap := by
  show frameOK base st.heap (modifyNode st.heap c _)
  unfold modifyNode
  cases hg : st.heap[c]? with
  | none => exact frameOK_refl _ _
  | some m =>
    refine ⟨by simp, fun a n ha hget => ?_⟩
    by_cases hac : a = c
    · subst hac
      right
      rw [hget] at hg
      cases hg
      rw [List.getElem?_set_eq_of_lt _ (List.getElem?_eq_some.mp hget).1]
    · left
      rw [List.getElem?_set_ne (by omega)]
      exact hget

theorem finishInsert_heap (st : PState) (a : Addr) :
    (finishInsert st a).2.heap = st.heap := by
  unfold finishInsert; cases st.heap[a]? <;> rfl

theorem addReference_heap (st : PState) (p : Addr) (c : Option Addr) :
    (addReference st p c).heap = st.heap := by
  unfold addReference; cases st.heap[p]? <;> rfl

theorem frameOK_inheritPkg (base : Nat) (st : PState) (a : Addr)
    (u : Option Addr) (ha : base ≤ a) :
    frameOK base st.heap (inheritPkg st a u).heap := by
  unfold inheritPkg
  cases u with
  | none => exact frameOK_refl _ _
  | some ua =>
    dsimp only
    cases hval : st.heap[ua]? with
    | none => exact frameOK_refl _ _
    | some un => exact frameOK_setNode_ge st _ ha

theorem frameOK_length {base : Nat} {h h' : List TypeNode}
    (f : frameOK base h h') : h.length ≤ h'.length := f.1



theorem processType_hit_eq (cfg : Config) (w : World) (pkg : Pkg)
    (parent : Option Addr) (t : GoType) (depth : Nat) (st : PState) (a : Addr)
    (h : lookupA st.table (typeKey (mkType pkg t)) = some a) :
    processType cfg w pkg parent t depth st = (some a, st) := by
  rw [processType.eq_def]; simp only [h]

theorem processType_depth_eq (cfg : Config) (w : World) (pkg : Pkg)
    (parent : Option Addr) (t : GoType) (depth : Nat) (st : PState)
    (hmiss : lookupA st.table (typeKey (mkType pkg t)) = none)
    (hd : depth > cfg.maxDepth) :
    processType cfg w pkg parent t depth st =
      (some st.heap.length,
        pushNode st { attachDoc cfg pkg (mkType pkg t) with kind := .Unknown }) := by
  rw [processType.eq_def]; simp only [hmiss]; rw [dif_pos hd]

theorem processType_null_eq (cfg : Config) (w : World) (pkg : Pkg)
    (parent : Option Addr) (depth : Nat) (st : PState)
    (hmiss : lookupA st.table (typeKey (mkType pkg .null)) = none)
    (hd : depth ≤ cfg.maxDepth) :
    processType cfg w pkg parent .null depth st =
      allocFinish st { attachDoc cfg pkg (mkType pkg .null) with kind := .Unknown } := by
  rw [processType.eq_def]; simp only [hmiss]; rw [dif_neg (by omega)]

theorem processType_basic_eq (cfg : Config) (w : World) (pkg : Pkg)
    (parent : Option Addr) (nm : String) (depth : Nat) (st : PState)
    (hmiss : lookupA st.table (typeKey (mkType pkg (.basic nm))) = none)
    (hd : depth ≤ cfg.maxDepth) :
    processType cfg w pkg parent (.basic nm) depth st =
      allocFinish st
        { attachDoc cfg pkg (mkType pkg (.basic nm)) with kind := .Basic, pkg := "" } := by
  rw [processType.eq_def]; simp only [hmiss]; rw [dif_neg (by omega)]

theorem processType_interface_eq (cfg : Config) (w : World) (pkg : Pkg)
    (parent : Option Addr) (body : String) (depth : Nat) (st : PState)
    (hmiss : lookupA st.table (typeKey (mkType pkg (.interfaceLit body))) = none)
    (hd : depth ≤ cfg.maxDepth) :
    processType cfg w pkg parent (.interfaceLit body) depth st =
      allocFinish st
        { attachDoc cfg pkg (mkType pkg (.interfaceLit body)) with kind := .Interface } := by
  rw [processType.eq_def]; simp only [hmiss]; rw [dif_neg (by omega)]

theorem processType_other_eq (cfg : Config) (w : World) (pkg : Pkg)
    (parent : Option Addr) (af rf : String) (depth : Nat) (st : PState)
    (hmiss : lookupA st.table (typeKey (mkType pkg (.other af rf))) = none)
    (hd : depth ≤ cfg.maxDepth) :
    processType cfg w pkg parent (.other af rf) depth st =
      allocFinish st
        { attachDoc cfg pkg (mkType pkg (.other af rf)) with kind := .Unsupported } := by
  rw [processType.eq_def]; simp only [hmiss]; rw [dif_neg (by omega)]

theorem processType_anon_eq (cfg : Config) (w : World) (pkg : Pkg)
    (body : String) (depth : Nat) (st : PState)
    (hmiss : lookupA st.table (typeKey (mkType pkg (.structLit body))) = none)
    (hd : depth ≤ cfg.maxDepth) :
    processType cfg w pkg none (.structLit body) depth st =
      allocFinish st
        { attachDoc cfg pkg (mkType pkg (.structLit body)) with
            name := "", pkg := "", kind := .Unsupported } := by
  rw [processType.eq_def]; simp only [hmiss]; rw [dif_neg (by omega)]

theorem processType_namedFail_eq (cfg : Config) (w : World) (pkg : Pkg)
    (parent : Option Addr) (pp nm : String) (depth : Nat) (st : PState)
    (hmiss : lookupA st.table (typeKey (mkType pkg (.named pp nm))) = none)
    (hd : depth ≤ cfg.maxDepth)
    (himp : (if pkg.path = (attachDoc cfg pkg (mkType pkg (.named pp nm))).pkg
        then some pkg
        else findImport w pkg (attachDoc cfg pkg (mkType pkg (.named pp nm))).pkg) = none) :
    processType cfg w pkg parent (.named pp nm) depth st =
      (some st.heap.length,
        pushNode st (attachDoc cfg pkg (mkType pkg (.named pp nm)))) := by
  rw [processType.eq_def]; simp only [hmiss]; rw [dif_neg (by omega)]
  simp only [himp]

theorem processType_namedOk_eq (cfg : Config) (w : World) (pkg : Pkg)
    (parent : Option Addr) (pp nm : String) (depth : Nat) (st : PState) (pkg' : Pkg)
    (hmiss : lookupA st.table (typeKey (mkType pkg (.named pp nm))) = none)
    (hd : depth ≤ cfg.maxDepth)
    (himp : (if pkg.path = (attachDoc cfg pkg (mkType pkg (.named pp nm))).pkg
        then some pkg
        else findImport w pkg (attachDoc cfg pkg (mkType pkg (.named pp nm))).pkg) = some pkg') :
    processType cfg w pkg parent (.named pp nm) depth st =
      finishAlias
        (processType cfg w pkg' (some st.heap.length) (underlyingOf w pp nm)
          (depth + 1)
          (pushNode st
            { attachDoc cfg pkg (mkType pkg (.named pp nm)) with kind := .Alias }))
        st.heap.length := by
  rw [processType.eq_def]; simp only [hmiss]; rw [dif_neg (by omega)]
  simp only [himp]

theorem processType_pointer_eq (cfg : Config) (w : World) (pkg : Pkg)
    (parent : Option Addr) (e : GoType) (depth : Nat) (st : PState)
    (hmiss : lookupA st.table (typeKey (mkType pkg (.pointer e))) = none)
    (hd : depth ≤ cfg.maxDepth) :
    processType cfg w pkg parent (.pointer e) depth st =
      finishIndirect
        (processType cfg w pkg (some st.heap.length) e (depth + 1)
          (pushNode st
            { attachDoc cfg pkg (mkType pkg (.pointer e)) with kind := .Pointer }))
        st.heap.length := by
  rw [processType.eq_def]; simp only [hmiss]; rw [dif_neg (by omega)]

theorem processType_slice_eq (cfg : Config) (w : World) (pkg : Pkg)
    (parent : Option Addr) (e : GoType) (depth : Nat) (st : PState)
    (hmiss : lookupA st.table (typeKey (mkType pkg (.slice e))) = none)
    (hd : depth ≤ cfg.maxDepth) :
    processType cfg w pkg parent (.slice e) depth st =
      finishIndirect
        (processType cfg w pkg (some st.heap.length) e (depth + 1)
          (pushNode st
            { attachDoc cfg pkg (mkType pkg (.slice e)) with kind := .Slice }))
        st.heap.length := by
  rw [processType.eq_def]; simp only [hmiss]; rw [dif_neg (by omega)]

theorem processType_map_eq (cfg : Config) (w : World) (pkg : Pkg)
    (parent : Option Addr) (k v : GoType) (depth : Nat) (st : PState)
    (hmiss : lookupA st.table (typeKey (mkType pkg (.mapType k v))) = none)
    (hd : depth ≤ cfg.maxDepth) :
    processType cfg w pkg parent (.mapType k v) depth st =
      finishMap
        (processType cfg w pkg (some st.heap.length) v (depth + 1)
          (setNode
            (processType cfg w pkg (some st.heap.length) k (depth + 1)
              (pushNode st
                { attachDoc cfg pkg (mkType pkg (.mapType k v)) with kind := .Map })).2
            st.heap.length
            (fun n =>
              { n with
                  keyType :=
                    (processType cfg w pkg (some st.heap.length) k (depth + 1)
                      (pushNode st
                        { attachDoc cfg pkg (mkType pkg (.mapType k v)) with
                            kind := .Map })).1 })))
        st.heap.length := by
  rw [processType.eq_def]; simp only [hmiss]; rw [dif_neg (by omega)]

theorem processType_struct_eq (cfg : Config) (w : World) (pkg : Pkg)
    (body : String) (pAddr : Addr) (depth : Nat) (st : PState) (pn : TypeNode)
    (info : TypeInfo)
    (hmiss : lookupA st.table (typeKey (mkType pkg (.structLit body))) = none)
    (hd : depth ≤ cfg.maxDepth)
    (hp : (setNode (pushNode st (attachDoc cfg pkg (mkType pkg (.structLit body))))
        pAddr (fun n => { n with kind := .Struct })).heap[pAddr]? = some pn)
    (hinfo : lookupA pkg.typeInfos pn.name = some info) :
    processType cfg w pkg (some pAddr) (.structLit body) depth st =
      (none,
        processStructFields cfg w pkg pAddr (typeKey pn) info.fields depth
          (setNode (pushNode st (attachDoc cfg pkg (mkType pkg (.structLit body))))
            pAddr (fun n => { n with kind := .Struct }))) := by
  rw [processType.eq_def]; simp only [hmiss]; rw [dif_neg (by omega)]
  simp only [hp, hinfo]

theorem processType_structNoInfo_eq (cfg : Config) (w : World) (pkg : Pkg)
    (body : String) (pAddr : Addr) (depth : Nat) (st : PState) (pn : TypeNode)
    (hmiss : lookupA st.table (typeKey (mkType pkg (.structLit body))) = none)
    (hd : depth ≤ cfg.maxDepth)
    (hp : (setNode (pushNode st (attachDoc cfg pkg (mkType pkg (.structLit body))))
        pAddr (fun n => { n with kind := .Struct })).heap[pAddr]? = some pn)
    (hinfo : lookupA pkg.typeInfos pn.name = none) :
    processType cfg w pkg (some pAddr) (.structLit body) depth st =
      (none,
        setNode (pushNode st (attachDoc cfg pkg (mkType pkg (.structLit body))))
          pAddr (fun n => { n with kind := .Struct })) := by
  rw [processType.eq_def]; simp only [hmiss]; rw [dif_neg (by omega)]
  simp only [hp, hinfo]

theorem processType_structDangling_eq (cfg : Config) (w : World) (pkg : Pkg)
    (body : String) (pAddr : Addr) (depth : Nat) (st : PState)
    (hmiss : lookupA st.table (typeKey (mkType pkg (.structLit body))) = none)
    (hd : depth ≤ cfg.maxDepth)
    (hp : (setNode (pushNode st (attachDoc cfg pkg (mkType pkg (.structLit body))))
        pAddr (fun n => { n with kind := .Struct })).heap[pAddr]? = none) :
    processType cfg w pkg (some pAddr) (.structLit body) depth st =
      (none,
        setNode (pushNode st (attachDoc cfg pkg (mkType pkg (.structLit body))))
          pAddr (fun n => { n with kind := .Struct })) := by
  rw [processType.eq_def]; simp only [hmiss]; rw [dif_neg (by omega)]
  simp only [hp]

theorem processStructFields_nil_eq (cfg : Config) (w : World) (pkg : Pkg)
    (pAddr : Addr) (pk : String) (depth : Nat) (st : PState) :
    processStructFields cfg w pkg pAddr pk [] depth st = st := by
  rw [processStructFields.eq_def]

theorem processStructFields_cons_eq (cfg : Config) (w : World) (pkg : Pkg)
    (pAddr : Addr) (pk : String) (f : RawField) (rest : List RawField)
    (depth : Nat) (st : PState) :
    processStructFields cfg w pkg pAddr pk (f :: rest) depth st =
      processStructFields cfg w pkg pAddr pk rest depth
        (processField cfg w pkg pAddr pk f depth st) := by
  rw [processStructFields.eq_def]

theorem processField_none_eq (cfg : Config) (w : World) (pkg : Pkg)
    (pAddr : Addr) (pk : String) (f : RawField) (depth : Nat) (st : PState)
    (h : f.fieldType = none) :
    processField cfg w pkg pAddr pk f depth st = st := by
  rw [processField.eq_def]; simp only [h]

theorem processField_some_eq (cfg : Config) (w : World) (pkg : Pkg)
    (pAddr : Addr) (pk : String) (f : RawField) (t : GoType) (depth : Nat)
    (st : PState) (h : f.fieldType = some t) :
    processField cfg w pkg pAddr pk f depth st =
      fieldPost cfg pAddr pk f (processType cfg w pkg none t depth st) := by
  rw [processField.eq_def]; simp only [h]



theorem pushNode_length (st : PState) (x : TypeNode) :
    (pushNode st x).heap.length = st.heap.length + 1 := by
  simp [pushNode]

theorem setNode_length (st : PState) (a : Addr) (f : TypeNode → TypeNode) :
    (setNode st a f).heap.length = st.heap.length := by
  show (modifyNode st.heap a f).length = _
  unfold modifyNode
  cases st.heap[a]? <;> simp

theorem allocFinish_heap (st : PState) (n : TypeNode) :
    (allocFinish st n).2.heap = (pushNode st n).heap := by
  unfold allocFinish; rw [finishInsert_heap]

theorem finishAlias_heap (res : Option Addr × PState) (a : Addr) :
    (finishAlias res a).2.heap =
      (setNode res.2 a (fun n => { n with underlying := res.1 })).heap := by
  unfold finishAlias; rw [finishInsert_heap, addReference_heap]

theorem finishIndirect_heap (res : Option Addr × PState) (a : Addr) :
    (finishIndirect res a).2.heap =
      (inheritPkg (setNode res.2 a (fun n => { n with underlying := res.1 }))
        a res.1).heap := by
  unfold finishIndirect; rw [finishInsert_heap]

theorem finishMap_heap (vres : Option Addr × PState) (a : Addr) :
    (finishMap vres a).2.heap =
      (inheritPkg (setNode vres.2 a (fun n => { n with valueType := vres.1 }))
        a vres.1).heap := by
  unfold finishMap; rw [finishInsert_heap]

theorem inheritPkg_length (st : PState) (a : Addr) (u : Option Addr) :
    (inheritPkg st a u).heap.length = st.heap.length := by
  unfold inheritPkg
  cases u with
  | none => rfl
  | some ua =>
    dsimp only
    cases st.heap[ua]? with
    | none => rfl
    | some un => rw [setNode_length]

theorem frameOK_fieldPost (base : Nat) (cfg : Config) (pAddr : Addr)
    (pk : String) (f : RawField) (res : Option Addr × PState)
    (hp : base ≤ pAddr) :
    frameOK base res.2.heap (fieldPost cfg pAddr pk f res).heap := by
  unfold fieldPost
  cases res.1 with
  | none => exact frameOK_refl _ _
  | some c =>
    dsimp only
    refine frameOK_trans (frameOK_setNode_imported base c res.2) ?_
    split
    · exact frameOK_refl _ _
    · rw [addReference_heap]
      exact frameOK_setNode_ge _ _ hp

theorem processType_frame (cfg : Config) (w : World) (pkg : Pkg)
    (parent : Option Addr) (t : GoType) (depth : Nat) (st : PState) :
    ∀ base, base ≤ st.heap.length → (∀ p, parent = some p → base ≤ p) →
      frameOK base st.heap (processType cfg w pkg parent t depth st).2.heap := by
  refine processType.induct cfg w
    (fun pkg parent t depth st =>
      ∀ base, base ≤ st.heap.length → (∀ p, parent = some p → base ≤ p) →
        frameOK base st.heap (processType cfg w pkg parent t depth st).2.heap)
    (fun pkg pAddr pk fs depth st =>
      ∀ base, base ≤ st.heap.length → base ≤ pAddr →
        frameOK base st.heap
          (processStructFields cfg w pkg pAddr pk fs depth st).heap)
    (fun pkg pAddr pk f depth st =>
      ∀ base, base ≤ st.heap.length → base ≤ pAddr →
        frameOK base st.heap (processField cfg w pkg pAddr pk f depth st).heap)
    ?_ ?_ ?_ ?_ ?_ ?_ ?_ ?_ ?_ ?_ ?_ ?_ ?_ ?_ ?_ ?_ ?_ ?_ ?_ pkg parent t depth st
  · -- memo hit
    intro pkg parent t depth st td0 ua h base hb hp
    rw [processType_hit_eq cfg w pkg parent t depth st ua h]
    exact frameOK_refl _ _
  · -- depth exceeded
    intro pkg parent t depth st td0 h hd base hb hp
    rw [processType_depth_eq cfg w pkg parent t depth st h hd]
    exact frameOK_pushNode _ _ _
  · -- null
    intro pkg parent depth st hd td0 h base hb hp
    rw [processType_null_eq cfg w pkg parent depth st h (by omega),
      allocFinish_heap]
    exact frameOK_pushNode _ _ _
  · -- named, import not found
    intro pkg parent depth st hd pkgPath nm td0 h td himp base hb hp
    rw [processType_namedFail_eq cfg w pkg parent pkgPath nm depth st h
      (by omega) himp]
    exact frameOK_pushNode _ _ _
  · -- named, resolved
    intro pkg parent depth st hd pkgPath nm pkg' td0 h td himp ih base hb hp
    rw [processType_namedOk_eq cfg w pkg parent pkgPath nm depth st pkg' h
      (by omega) himp]
    refine frameOK_trans (frameOK_pushNode base st _)
      (frameOK_trans (ih base ?_ ?_) ?_)
    · rw [pushNode_length]; omega
    · intro p hpeq
      cases hpeq
      omega
    · rw [finishAlias_heap]
      exact frameOK_setNode_ge _ _ (by omega)
  · -- struct literal with parent, info found
    intro pkg depth st hd _body ua n info hinfo td0 h td st2 hget ih base hb hp
    rw [processType_struct_eq cfg w pkg _body ua depth st n info h (by omega)
      hget hinfo]
    have hua : base ≤ ua := hp ua rfl
    refine frameOK_trans (frameOK_pushNode base st _)
      (frameOK_trans (frameOK_setNode_ge _ _ hua) (ih base ?_ hua))
    rw [setNode_length, pushNode_length]; omega
  · -- struct literal with parent, no info
    intro pkg depth st hd _body ua n hinfo td0 h td st2 hget base hb hp
    rw [processType_structNoInfo_eq cfg w pkg _body ua depth st n h (by omega)
      hget hinfo]
    have hua : base ≤ ua := hp ua rfl
    exact frameOK_trans (frameOK_pushNode base st _) (frameOK_setNode_ge _ _ hua)
  · -- struct literal with parent, dangling parent pointer
    intro pkg depth st hd _body ua td0 h td st2 hget base hb hp
    rw [processType_structDangling_eq cfg w pkg _body ua depth st h (by omega)
      hget]
    have hua : base ≤ ua := hp ua rfl
    exact frameOK_trans (frameOK_pushNode base st _) (frameOK_setNode_ge _ _ hua)
  · -- anonymous struct literal
    intro pkg depth st hd _body td0 h base hb hp
    rw [processType_anon_eq cfg w pkg _body depth st h (by omega),
      allocFinish_heap]
    exact frameOK_pushNode _ _ _
  · -- pointer
    intro pkg parent depth st hd e td0 h td ih base hb hp
    rw [processType_pointer_eq cfg w pkg parent e depth st h (by omega)]
    refine frameOK_trans (frameOK_pushNode base st _)
      (frameOK_trans (ih base ?_ ?_) ?_)
    · rw [pushNode_length]; omega
    · intro p hpeq
      cases hpeq
      omega
    · rw [finishIndirect_heap]
      exact frameOK_trans (frameOK_setNode_ge _ _ (by omega))
        (frameOK_inheritPkg base _ _ _ (by omega))
  · -- slice
    intro pkg parent depth st hd e td0 h td ih base hb hp
    rw [processType_slice_eq cfg w pkg parent e depth st h (by omega)]
    refine frameOK_trans (frameOK_pushNode base st _)
      (frameOK_trans (ih base ?_ ?_) ?_)
    · rw [pushNode_length]; omega
    · intro p hpeq
      cases hpeq
      omega
    · rw [finishIndirect_heap]
      exact frameOK_trans (frameOK_setNode_ge _ _ (by omega))
        (frameOK_inheritPkg base _ _ _ (by omega))
  · -- map
    intro pkg parent depth st hd k v td0 h td kres ihk ihk2 ihv base hb hp
    rw [processType_map_eq cfg w pkg parent k v depth st h (by omega)]
    have hk := frameOK_trans (frameOK_pushNode base st _)
      (ihk base (by rw [pushNode_length]; omega)
        (by intro p hpeq; cases hpeq; omega))
    have hv := ihv base (by rw [setNode_length]; exact le_trans hb hk.1)
      (by intro p hpeq; cases hpeq; omega)
    refine frameOK_trans hk (frameOK_trans (frameOK_setNode_ge _ _ hb)
      (frameOK_trans hv ?_))
    rw [finishMap_heap]
    exact frameOK_trans (frameOK_setNode_ge _ _ hb)
      (frameOK_inheritPkg base _ _ _ hb)
  · -- basic
    intro pkg parent depth st hd nm td0 h base hb hp
    rw [processType_basic_eq cfg w pkg parent nm depth st h (by omega),
      allocFinish_heap]
    exact frameOK_pushNode _ _ _
  · -- interface
    intro pkg parent depth st hd body td0 h base hb hp
    rw [processType_interface_eq cfg w pkg parent body depth st h (by omega),
      allocFinish_heap]
    exact frameOK_pushNode _ _ _
  · -- other
    intro pkg parent depth st hd af rf td0 h base hb hp
    rw [processType_other_eq cfg w pkg parent af rf depth st h (by omega),
      allocFinish_heap]
    exact frameOK_pushNode _ _ _
  · -- struct fields: nil
    intro pkg pAddr pk depth st base hb hp
    rw [processStructFields_nil_eq]
    exact frameOK_refl _ _
  · -- struct fields: cons
    intro pkg pAddr pk depth st f rest ihf ihrest base hb hp
    rw [processStructFields_cons_eq]
    have h1 := ihf base hb hp
    exact frameOK_trans h1 (ihrest base (le_trans hb h1.1) hp)
  · -- field with unresolvable type
    intro pkg pAddr pk f depth st h base hb hp
    rw [processField_none_eq cfg w pkg pAddr pk f depth st h]
    exact frameOK_refl _ _
  · -- field with resolved type
    intro pkg pAddr pk f depth st t h ih base hb hp
    rw [processField_some_eq cfg w pkg pAddr pk f t depth st h]
    exact frameOK_trans (ih base hb (by intro p hpeq; cases hpeq))
      (frameOK_fieldPost base cfg pAddr pk f _ hp)



/-! ## Concrete fixtures -/

/-- A run configuration with indirection depth limit 2 and no exclusions. -/
def cfgA : Config := { maxDepth := 2 }

/-- A package with no declarations and no imports. -/
def pkgB : Pkg := { path := "P" }

/-- A world around pkgB. -/
def wB : World := { pkgs := [pkgB] }

/-- The run state after resolving the basic type `string` once from pkgB:
one Basic node, inserted under the key "string" (the insertion key differs
from the memo-lookup key "P.string" computed by mkType). -/
def stBasic1 : PState :=
  { heap := [{ id := "string", name := "string", kind := .Basic }],
    table := [("string", 0)] }

/-- A run state whose canonical table already holds a node for `P.S`. -/
def stHit : PState :=
  { heap := [{ id := "P.S", name := "S", pkg := "P", kind := .Struct }],
    table := [("P.S", 0)] }

/-- C1 counterexample: resolving the basic type `string` twice in one run
yields two distinct heap nodes (addresses 0 and 1) with the same identity
`string` — the memo lookup key of a Basic descriptor is built before the
pkg-clearing of the Basic branch, so the inserted key never matches the next
lookup, refuting one-TypeNode-per-identity. -/
theorem C1_counterexample :
    processType cfgA wB pkgB none (.basic "string") 0 {} = (some 0, stBasic1) ∧
    (processType cfgA wB pkgB none (.basic "string") 0 stBasic1).1 = some 1 ∧
    ((processType cfgA wB pkgB none (.basic "string") 0 stBasic1).2.heap[0]?).map
        typeKey = some ("string") ∧
    ((processType cfgA wB pkgB none (.basic "string") 0 stBasic1).2.heap[1]?).map
        typeKey = some ("string") ∧
    (0 : Addr) ≠ (1 : Addr) := by
  refine ⟨?_, ?_, ?_, ?_, by decide⟩
  · rw [processType.eq_def]; rfl
  · rw [processType.eq_def]; rfl
  · rw [processType.eq_def]; rfl
  · rw [processType.eq_def]; rfl

/-- C1 (amended): when a descriptor's identity (the key of the fresh mkType
node) is already bound in the canonical table, resolution returns that
existing node unchanged — one canonical node per table-held identity.  The
unqualified claim fails for Basic descriptors, whose insertion key differs
from the next lookup key (see the counterexample). -/
theorem C1_identity_memoized (cfg : Config) (w : World) (pkg : Pkg)
    (parent : Option Addr) (t : GoType) (depth : Nat) (st : PState) (a : Addr)
    (h : lookupA st.table (typeKey (mkType pkg t)) = some a) :
    processType cfg w pkg parent t depth st = (some a, st) := by
  rw [processType.eq_def]; simp only [h]

/-- C1 witness: the memoization equation evaluated at a concrete table-hit
state. -/
theorem C1_identity_memoized_witness :
    lookupA stHit.table (typeKey (mkType pkgB (.named "P" "S"))) = some 0 ∧
    processType cfgA wB pkgB none (.named "P" "S") 0 stHit = (some 0, stHit) :=
  ⟨by decide, C1_identity_memoized cfgA wB pkgB none (.named "P" "S") 0 stHit 0
    (by decide)⟩

/-- C3 counterexample: resolving the named type `Q.T` from a package that
does not import `Q` returns a non-null node (address 0, identity `Q.T`)
while the canonical table stays empty — the unresolvable-import path returns
without inserting. -/
theorem C3_counterexample :
    (processType cfgA wB pkgB none (.named "Q" "T") 0 {}).1 = some 0 ∧
    ((processType cfgA wB pkgB none (.named "Q" "T") 0 {}).2.heap[0]?).map
        typeKey = some ("Q.T") ∧
    (processType cfgA wB pkgB none (.named "Q" "T") 0 {}).2.table = [] := by
  refine ⟨?_, ?_, ?_⟩ <;> (rw [processType.eq_def]; rfl)



theorem finishInsert_fst (st : PState) (a : Addr) :
    (finishInsert st a).1 = some a := by
  unfold finishInsert; cases st.heap[a]? <;> rfl

theorem finishInsert_insertion (st : PState) (a : Addr)
    (ha : a < st.heap.length) :
    ∃ n, (finishInsert st a).2.heap[a]? = some n ∧
      lookupA (finishInsert st a).2.table (typeKey n) = some a := by
  have hg : st.heap[a]? = some st.heap[a] := List.getElem?_eq_getElem ha
  refine ⟨st.heap[a], ?_, ?_⟩
  · unfold finishInsert
    simp only [hg]
  · unfold finishInsert
    simp only [hg]
    exact lookupA_insertA_self _ _ _

theorem finishInsert_spec (st : PState) (a : Addr) (n : TypeNode)
    (h : st.heap[a]? = some n) :
    finishInsert st a =
      (some a, { st with table := insertA st.table (typeKey n) a }) := by
  unfold finishInsert
  simp only [h]

theorem pushNode_heap (st : PState) (x : TypeNode) :
    (pushNode st x).heap = st.heap ++ [x] := rfl

theorem pushNode_get_last (st : PState) (x : TypeNode) :
    (pushNode st x).heap[st.heap.length]? = some x := by
  show (st.heap ++ [x])[st.heap.length]? = some x
  exact List.getElem?_concat_length _ _

theorem processType_heap_mono (cfg : Config) (w : World) (pkg : Pkg)
    (parent : Option Addr) (t : GoType) (depth : Nat) (st : PState) :
    st.heap.length ≤ (processType cfg w pkg parent t depth st).2.heap.length :=
  (processType_frame cfg w pkg parent t depth st 0 (Nat.zero_le _)
    (fun _ _ => Nat.zero_le _)).1

theorem finishIndirect_fst (res : Option Addr × PState) (a : Addr) :
    (finishIndirect res a).1 = some a := by
  unfold finishIndirect; exact finishInsert_fst _ _

theorem finishAlias_fst (res : Option Addr × PState) (a : Addr) :
    (finishAlias res a).1 = some a := by
  unfold finishAlias; exact finishInsert_fst _ _

theorem finishMap_fst (res : Option Addr × PState) (a : Addr) :
    (finishMap res a).1 = some a := by
  unfold finishMap; exact finishInsert_fst _ _

theorem addReference_length (st : PState) (p : Addr) (c : Option Addr) :
    (addReference st p c).heap.length = st.heap.length := by
  rw [addReference_heap]

theorem finishIndirect_insertion (res : Option Addr × PState) (a : Addr)
    (ha : a < res.2.heap.length) :
    ∃ n, (finishIndirect res a).2.heap[a]? = some n ∧
      lookupA (finishIndirect res a).2.table (typeKey n) = some a := by
  unfold finishIndirect
  apply finishInsert_insertion
  rw [inheritPkg_length, setNode_length]
  exact ha

theorem finishAlias_insertion (res : Option Addr × PState) (a : Addr)
    (ha : a < res.2.heap.length) :
    ∃ n, (finishAlias res a).2.heap[a]? = some n ∧
      lookupA (finishAlias res a).2.table (typeKey n) = some a := by
  unfold finishAlias
  apply finishInsert_insertion
  rw [addReference_length, setNode_length]
  exact ha

theorem finishMap_insertion (res : Option Addr × PState) (a : Addr)
    (ha : a < res.2.heap.length) :
    ∃ n, (finishMap res a).2.heap[a]? = some n ∧
      lookupA (finishMap res a).2.table (typeKey n) = some a := by
  unfold finishMap
  apply finishInsert_insertion
  rw [inheritPkg_length, setNode_length]
  exact ha

theorem allocFinish_spec (st : PState) (x : TypeNode) :
    allocFinish st x =
      (some st.heap.length,
        { heap := st.heap ++ [x],
          table := insertA st.table (typeKey x) st.heap.length,
          refs := st.refs, gvs := st.gvs }) := by
  unfold allocFinish
  rw [finishInsert_spec _ _ x (pushNode_get_last st x)]
  rfl

theorem allocFinish_insertion (st : PState) (x : TypeNode) :
    ∃ n, (allocFinish st x).2.heap[st.heap.length]? = some n ∧
      lookupA (allocFinish st x).2.table (typeKey n) = some st.heap.length := by
  rw [allocFinish_spec]
  exact ⟨x, List.getElem?_concat_length _ _, lookupA_insertA_self _ _ _⟩

/-- C3 (amended): on a memo miss within the depth bound, whenever the
import-resolution step of a named descriptor succeeds (vacuous for other
descriptors), every non-null resolution result has been inserted into the
canonical table keyed by its (current) identity before the call returns.
The unqualified claim fails on the depth-exceeded and unresolvable-import
paths, which return a node without inserting (see the counterexample). -/
theorem C3_insertion (cfg : Config) (w : World) (pkg : Pkg)
    (parent : Option Addr) (t : GoType) (depth : Nat) (st : PState) (a : Addr)
    (hmiss : lookupA st.table (typeKey (mkType pkg t)) = none)
    (hdep : depth ≤ cfg.maxDepth)
    (himp : ∀ pp nm, t = .named pp nm →
      (if pkg.path = (attachDoc cfg pkg (mkType pkg t)).pkg then some pkg
       else findImport w pkg (attachDoc cfg pkg (mkType pkg t)).pkg).isSome)
    (hres : (processType cfg w pkg parent t depth st).1 = some a) :
    ∃ n, (processType cfg w pkg parent t depth st).2.heap[a]? = some n ∧
      lookupA (processType cfg w pkg parent t depth st).2.table (typeKey n) =
        some a := by
  cases t with
  | null =>
    rw [processType_null_eq cfg w pkg parent depth st hmiss hdep] at hres ⊢
    rw [allocFinish_spec] at hres
    cases hres
    exact allocFinish_insertion st _
  | basic nm =>
    rw [processType_basic_eq cfg w pkg parent nm depth st hmiss hdep] at hres ⊢
    rw [allocFinish_spec] at hres
    cases hres
    exact allocFinish_insertion st _
  | interfaceLit body =>
    rw [processType_interface_eq cfg w pkg parent body depth st hmiss hdep] at hres ⊢
    rw [allocFinish_spec] at hres
    cases hres
    exact allocFinish_insertion st _
  | other af rf =>
    rw [processType_other_eq cfg w pkg parent af rf depth st hmiss hdep] at hres ⊢
    rw [allocFinish_spec] at hres
    cases hres
    exact allocFinish_insertion st _
  | named pp nm =>
    have hsome := himp pp nm rfl
    rcases hsw : (if pkg.path = (attachDoc cfg pkg (mkType pkg (.named pp nm))).pkg
        then some pkg
        else findImport w pkg (attachDoc cfg pkg (mkType pkg (.named pp nm))).pkg)
      with _ | pkg'
    · rw [hsw] at hsome; simp at hsome
    · rw [processType_namedOk_eq cfg w pkg parent pp nm depth st pkg' hmiss hdep
        hsw] at hres ⊢
      rw [finishAlias_fst] at hres
      cases hres
      apply finishAlias_insertion
      refine lt_of_lt_of_le ?_
        (processType_heap_mono cfg w pkg' (some st.heap.length) _ (depth + 1)
          (pushNode st _))
      rw [pushNode_length]
      exact Nat.lt_succ_self _
  | pointer e =>
    rw [processType_pointer_eq cfg w pkg parent e depth st hmiss hdep] at hres ⊢
    rw [finishIndirect_fst] at hres
    cases hres
    apply finishIndirect_insertion
    refine lt_of_lt_of_le ?_
      (processType_heap_mono cfg w pkg (some st.heap.length) e (depth + 1)
        (pushNode st _))
    rw [pushNode_length]
    exact Nat.lt_succ_self _
  | slice e =>
    rw [processType_slice_eq cfg w pkg parent e depth st hmiss hdep] at hres ⊢
    rw [finishIndirect_fst] at hres
    cases hres
    apply finishIndirect_insertion
    refine lt_of_lt_of_le ?_
      (processType_heap_mono cfg w pkg (some st.heap.length) e (depth + 1)
        (pushNode st _))
    rw [pushNode_length]
    exact Nat.lt_succ_self _
  | mapType k v =>
    rw [processType_map_eq cfg w pkg parent k v depth st hmiss hdep] at hres ⊢
    rw [finishMap_fst] at hres
    cases hres
    apply finishMap_insertion
    refine lt_of_lt_of_le ?_
      (processType_heap_mono cfg w pkg (some st.heap.length) v (depth + 1)
        (setNode (processType cfg w pkg (some st.heap.length) k (depth + 1)
          (pushNode st _)).2 st.heap.length _))
    rw [setNode_length]
    refine lt_of_lt_of_le ?_
      (processType_heap_mono cfg w pkg (some st.heap.length) k (depth + 1)
        (pushNode st _))
    rw [pushNode_length]
    exact Nat.lt_succ_self _
  | structLit body =>
    cases parent with
    | none =>
      rw [processType_anon_eq cfg w pkg body depth st hmiss hdep] at hres ⊢
      rw [allocFinish_spec] at hres
      cases hres
      exact allocFinish_insertion st _
    | some pAddr =>
      rcases hget : (setNode (pushNode st (attachDoc cfg pkg
          (mkType pkg (.structLit body)))) pAddr
          (fun n => { n with kind := .Struct })).heap[pAddr]? with _ | pn
      · rw [processType_structDangling_eq cfg w pkg body pAddr depth st hmiss
          hdep hget] at hres
        cases hres
      · rcases hinfo : lookupA pkg.typeInfos pn.name with _ | info
        · rw [processType_structNoInfo_eq cfg w pkg body pAddr depth st pn hmiss
            hdep hget hinfo] at hres
          cases hres
        · rw [processType_struct_eq cfg w pkg body pAddr depth st pn info hmiss
            hdep hget hinfo] at hres
          cases hres



theorem setNode_get_self_inv (st : PState) (a : Addr) (f : TypeNode → TypeNode)
    (x : TypeNode) (h : (setNode st a f).heap[a]? = some x) :
    ∃ m, st.heap[a]? = some m ∧ x = f m := by
  revert h
  show (modifyNode st.heap a f)[a]? = some x → _
  unfold modifyNode
  cases hg : st.heap[a]? with
  | none => intro h; rw [hg] at h; cases h
  | some m =>
    intro h
    rw [List.getElem?_set_eq_of_lt _ (List.getElem?_eq_some.mp hg).1] at h
    exact ⟨m, rfl, (Option.some.inj h).symm⟩

/-- C6 (amended): when the descriptor's identity already exists in the
canonical table, resolution returns the existing node immediately for EVERY
descriptor — including a struct literal with a known parent node, whose
identity can be in the table (a `*struct\x7bX\x7d` field inserts the
pointer-derived node under the literal's key; see the counterexample, where
the hit returns non-null and the parent is never promoted).  Only on a memo
miss does a struct literal with a known parent promote the parent's kind to
Struct in place, extract its declared fields into it, and return null to
signal absorption into the parent. -/
theorem C6_memo_and_absorb (cfg : Config) (w : World) (pkg : Pkg)
    (parent : Option Addr) (t : GoType) (depth : Nat) (st : PState) (a : Addr)
    (body : String) (pAddr : Addr) (pn : TypeNode) (info : TypeInfo) :
    (lookupA st.table (typeKey (mkType pkg t)) = some a →
      processType cfg w pkg parent t depth st = (some a, st)) ∧
    (lookupA st.table (typeKey (mkType pkg (.structLit body))) = none →
      depth ≤ cfg.maxDepth →
      (setNode (pushNode st (attachDoc cfg pkg (mkType pkg (.structLit body))))
          pAddr (fun n => { n with kind := .Struct })).heap[pAddr]? = some pn →
      lookupA pkg.typeInfos pn.name = some info →
      pn.kind = .Struct ∧
        processType cfg w pkg (some pAddr) (.structLit body) depth st =
          (none,
            processStructFields cfg w pkg pAddr (typeKey pn) info.fields depth
              (setNode
                (pushNode st (attachDoc cfg pkg (mkType pkg (.structLit body))))
                pAddr (fun n => { n with kind := .Struct })))) := by
  constructor
  · intro h
    exact processType_hit_eq cfg w pkg parent t depth st a h
  · intro hmiss hdep hp hinfo
    constructor
    · obtain ⟨m, _, hx⟩ := setNode_get_self_inv _ _ _ _ hp
      rw [hx]
    · exact processType_struct_eq cfg w pkg body pAddr depth st pn info hmiss
        hdep hp hinfo



/-- C7: the field record built for a struct member: its name is the declared
name, overridden by the json tag's first component when the tag is present
and that component is non-empty; a member with no declared name is marked
embedded; and an embedded member with no tag-provided name is additionally
marked inlined with its display name equal to the resolved type's name. -/
theorem C7_field_naming (f : RawField) (c : Addr) (tyName : String) :
    ((buildField f c tyName).embedded = (f.name == "")) ∧
    (f.jsonTag = none → tagName f = f.name) ∧
    (∀ tagVal a0 rest, f.jsonTag = some tagVal →
      splitOnChar ',' tagVal.toList = a0 :: rest → a0.isEmpty = false →
      tagName f = String.mk a0) ∧
    (∀ tagVal a0 rest, f.jsonTag = some tagVal →
      splitOnChar ',' tagVal.toList = a0 :: rest → a0.isEmpty = true →
      tagName f = f.name) ∧
    (f.name ≠ "" →
      (buildField f c tyName).name = tagName f ∧
      (buildField f c tyName).embedded = false ∧
      (buildField f c tyName).inlined = false) ∧
    (f.name = "" → tagName f = "" →
      (buildField f c tyName).embedded = true ∧
      (buildField f c tyName).inlined = true ∧
      (buildField f c tyName).name = tyName) ∧
    (f.name = "" → tagName f ≠ "" →
      (buildField f c tyName).embedded = true ∧
      (buildField f c tyName).inlined = false ∧
      (buildField f c tyName).name = tagName f) := by
  refine ⟨rfl, ?_, ?_, ?_, ?_, ?_, ?_⟩
  · intro h
    unfold tagName
    rw [h]
  · intro tagVal a0 rest htag hsplit hne
    unfold tagName
    rw [htag]
    dsimp only
    rw [hsplit]
    dsimp only
    simp [hne]
  · intro tagVal a0 rest htag hsplit hemp
    unfold tagName
    rw [htag]
    dsimp only
    rw [hsplit]
    dsimp only
    simp [hemp]
  · intro hne
    have hbeq : (f.name == "") = false := by simp [hne]
    simp [buildField, hbeq]
  · intro hname htag
    have hbeq : (f.name == "") = true := by simp [hname]
    have hbt : (tagName f == "") = true := by simp [htag]
    simp [buildField, hbeq, hbt]
  · intro hname htag
    have hbeq : (f.name == "") = true := by simp [hname]
    have hbt : (tagName f == "") = false := by simp [htag]
    simp [buildField, hbeq, hbt]

def fPlain : RawField := { name := "kind", fieldType := some (.basic "string") }

def fTagged : RawField :=
  { name := "Spec", jsonTag := some ("spec,omitempty"),
    fieldType := some (.named "P" "GuestbookSpec") }

def fEmbedded : RawField :=
  { name := "", fieldType := some (.named "Q" "ObjectMeta") }

/-- C7 witness: the naming rules evaluated on a plain member, a tagged
member and an embedded member. -/
theorem C7_field_naming_witness :
    (buildField fEmbedded 2 ("ObjectMeta")).embedded = true ∧
    (buildField fEmbedded 2 ("ObjectMeta")).inlined = true ∧
    (buildField fEmbedded 2 ("ObjectMeta")).name = "ObjectMeta" ∧
    tagName fTagged = "spec" ∧
    (buildField fTagged 1 ("GuestbookSpec")).name = tagName fTagged ∧
    (buildField fTagged 1 ("GuestbookSpec")).embedded = false ∧
    tagName fPlain = "kind" ∧
    (buildField fPlain 0 ("string")).name = tagName fPlain := by
  have hEmb :=
    (C7_field_naming fEmbedded 2 ("ObjectMeta")).2.2.2.2.2.1 rfl (by decide)
  have hTag :=
    (C7_field_naming fTagged 1 ("GuestbookSpec")).2.2.1 ("spec,omitempty")
      ("spec".toList) [("omitempty".toList)] rfl (by decide) (by decide)
  have hTag2 :=
    (C7_field_naming fTagged 1 ("GuestbookSpec")).2.2.2.2.1 (by decide)
  have hPlain :=
    (C7_field_naming fPlain 0 ("string")).2.1 rfl
  have hPlain2 :=
    (C7_field_naming fPlain 0 ("string")).2.2.2.2.1 (by decide)
  exact ⟨hEmb.1, hEmb.2.1, hEmb.2.2, hTag.trans (by decide), hTag2.1,
    hTag2.2.1, hPlain.trans (by decide), hPlain2.1⟩

theorem setNode_get_self (st : PState) (a : Addr) (f : TypeNode → TypeNode)
    (n : TypeNode) (h : st.heap[a]? = some n) :
    (setNode st a f).heap[a]? = some (f n) := by
  show (modifyNode st.heap a f)[a]? = _
  unfold modifyNode
  simp only [h]
  exact List.getElem?_set_eq_of_lt _ (List.getElem?_eq_some.mp h).1

theorem setNode_get_ne (st : PState) (a b : Addr) (f : TypeNode → TypeNode)
    (hne : a ≠ b) : (setNode st b f).heap[a]? = st.heap[a]? := by
  show (modifyNode st.heap b f)[a]? = _
  unfold modifyNode
  cases hg : st.heap[b]? with
  | none => rfl
  | some m => exact List.getElem?_set_ne (Ne.symm hne)

theorem setNode_table (st : PState) (a : Addr) (f : TypeNode → TypeNode) :
    (setNode st a f).table = st.table := rfl

theorem addReference_table (st : PState) (p : Addr) (c : Option Addr) :
    (addReference st p c).table = st.table := by
  unfold addReference; cases st.heap[p]? <;> rfl

/-- C9 (amended): a retained field's resolved type node is forced
non-imported (Imported = false) regardless of origin.  The override is NOT
frame-local: it mutates the shared canonical node in place, so the node's
imported status as observed outside the field changes too (see the
counterexample); what the theorem proves is the override itself together
with exactly which heap mutation it performs. -/
theorem C9_imported_override (cfg : Config) (w : World) (pkg : Pkg)
    (pAddr : Addr) (pk : String) (f : RawField) (t : GoType) (depth : Nat)
    (st st1 : PState) (c : Addr) (n : TypeNode)
    (hft : f.fieldType = some t)
    (hres : processType cfg w pkg none t depth st = (some c, st1))
    (hn : st1.heap[c]? = some n)
    (hne : c ≠ pAddr) :
    (processField cfg w pkg pAddr pk f depth st).heap[c]? =
      some { n with imported := false } ∧
    (processField cfg w pkg pAddr pk f depth st).table = st1.table := by
  rw [processField_some_eq cfg w pkg pAddr pk f t depth st hft, hres]
  unfold fieldPost
  dsimp only
  have h2 := setNode_get_self st1 c (fun m => { m with imported := false }) n hn
  split
  · exact ⟨h2, rfl⟩
  · constructor
    · rw [addReference_heap, setNode_get_ne _ c pAddr _ hne]
      exact h2
    · rw [addReference_table, setNode_table, setNode_table]

def pkgQ : Pkg := { path := "Q" }

def pkgPimp : Pkg := { path := "P", imports := ["Q"] }

def wImp : World :=
  { pkgs := [pkgPimp, pkgQ], underlying := [(("Q", "T"), .basic "int")] }

/-- The run state after resolving the imported alias `Q.T` once: its node is
canonical (in the table) and marked imported. -/
def stC9 : PState :=
  { heap := [{ id := "Q.T", name := "T", pkg := "Q", kind := .Alias,
               underlying := some 1, imported := true },
             { id := "int", name := "int", kind := .Basic },
             { id := "P.S", name := "S", pkg := "P", kind := .Struct }],
    table := [("int", 1), ("Q.T", 0)] }

def fImp : RawField := { name := "f", fieldType := some (.named "Q" "T") }

/-- C9 counterexample. -/
theorem C9_counterexample :
    (mkType pkgPimp (.named "Q" "T")).imported = true ∧
    (stC9.heap[0]?).map TypeNode.imported = some true ∧
    lookupA stC9.table ("Q.T") = some 0 ∧
    ((processField cfgA wImp pkgPimp 2 ("P.S") fImp 0 stC9).heap[0]?).map
        TypeNode.imported = some false ∧
    lookupA (processField cfgA wImp pkgPimp 2 ("P.S") fImp 0 stC9).table
        ("Q.T") = some 0 := by
  refine ⟨by decide, by decide, by decide, ?_, ?_⟩ <;>
  · rw [processField_some_eq cfgA wImp pkgPimp 2 ("P.S") fImp (.named "Q" "T")
      0 stC9 rfl,
      processType_hit_eq cfgA wImp pkgPimp none (.named "Q" "T") 0 stC9 0
        (by decide)]
    decide

/-- C9 witness: the field-processing equation evaluated on a concrete
imported alias field. -/
theorem C9_imported_override_witness :
    (processField cfgA wImp pkgPimp 2 ("P.S") fImp 0 stC9).heap[0]? =
      some { id := "Q.T", name := "T", pkg := "Q", kind := .Alias,
             underlying := some 1, imported := false } ∧
    (processField cfgA wImp pkgPimp 2 ("P.S") fImp 0 stC9).table =
      stC9.table :=
  C9_imported_override cfgA wImp pkgPimp 2 ("P.S") fImp (.named "Q" "T") 0 stC9
    stC9 0
    { id := "Q.T", name := "T", pkg := "Q", kind := .Alias,
      underlying := some 1, imported := true }
    rfl
    (processType_hit_eq cfgA wImp pkgPimp none (.named "Q" "T") 0 stC9 0
      (by decide))
    (by decide) (by decide)



/-- The provider info of the struct type `P.S` with one string member `x`. -/
def infoS : TypeInfo :=
  { doc := "S doc",
    fields := [{ name := "x", fieldType := some (.basic "string") }] }

/-- A package declaring the struct type `S`. -/
def pkgA : Pkg := { path := "P", typeInfos := [("S", infoS)] }

/-- A world around pkgA, with the underlying struct literal of `P.S`. -/
def wA : World :=
  { pkgs := [pkgA], roots := ["P"],
    underlying := [(("P", "S"), .structLit "x string")] }

/-- The node for `P.S` after kind promotion. -/
def pnS : TypeNode := { id := "P.S", name := "S", pkg := "P", kind := .Struct }

/-- C3 witness: the insertion property evaluated on a concrete Basic-type
resolution from the empty state. -/
theorem C3_insertion_witness :
    lookupA ({} : PState).table (typeKey (mkType pkgB (.basic "string"))) =
      none ∧
    (∃ n, (processType cfgA wB pkgB none (.basic "string") 0 {}).2.heap[0]? =
        some n ∧
      lookupA (processType cfgA wB pkgB none (.basic "string") 0 {}).2.table
          (typeKey n) = some 0) :=
  ⟨by decide,
    C3_insertion cfgA wB pkgB none (.basic "string") 0 {} 0 (by decide)
      (by decide) (fun pp nm h => by cases h)
      (by rw [processType.eq_def]; rfl)⟩

/-- C6 witness: the memo hit and the absorbed-struct behaviour evaluated at
a concrete table-hit state for `P.S`. -/
theorem C6_memo_and_absorb_witness :
    processType cfgA wA pkgA none (.named "P" "S") 0 stHit = (some 0, stHit) ∧
    (pnS.kind = .Struct ∧
      processType cfgA wA pkgA (some 0) (.structLit "x string") 0 stHit =
        (none,
          processStructFields cfgA wA pkgA 0 (typeKey pnS) infoS.fields 0
            (setNode
              (pushNode stHit
                (attachDoc cfgA pkgA (mkType pkgA (.structLit "x string"))))
              0 (fun n => { n with kind := .Struct })))) :=
  ⟨(C6_memo_and_absorb cfgA wA pkgA none (.named "P" "S") 0 stHit 0
      ("x string") 0 pnS infoS).1 (by decide),
   (C6_memo_and_absorb cfgA wA pkgA (some 0) (.structLit "x string") 0 stHit 0
      ("x string") 0 pnS infoS).2 (by decide) (by decide) (by decide)
      (by decide)⟩



/-- C2: resolution terminates on every input (processType, processStructFields
and processField are total functions of this development, witnessed by the
lexicographic measure on remaining depth); when depth exceeds maxDepth the
node's kind is set to Unknown and traversal stops there; depth increases by
exactly one through Alias-underlying, Pointer, Slice and Map key/value
indirection and stays unchanged when descending into struct fields. -/
theorem C2_depth_limit (cfg : Config) (w : World) (pkg : Pkg) (pkg' : Pkg)
    (parent : Option Addr) (t e k v : GoType) (pp nm body : String)
    (f : RawField) (ft : GoType) (fs : List RawField) (pk : String)
    (pAddr : Addr) (pn : TypeNode) (info : TypeInfo) (depth : Nat)
    (st : PState) :
    (lookupA st.table (typeKey (mkType pkg t)) = none →
      depth > cfg.maxDepth →
      processType cfg w pkg parent t depth st =
        (some st.heap.length,
          pushNode st
            { attachDoc cfg pkg (mkType pkg t) with kind := .Unknown })) ∧
    (lookupA st.table (typeKey (mkType pkg (.pointer e))) = none →
      depth ≤ cfg.maxDepth →
      processType cfg w pkg parent (.pointer e) depth st =
        finishIndirect
          (processType cfg w pkg (some st.heap.length) e (depth + 1)
            (pushNode st
              { attachDoc cfg pkg (mkType pkg (.pointer e)) with
                  kind := .Pointer }))
          st.heap.length) ∧
    (lookupA st.table (typeKey (mkType pkg (.slice e))) = none →
      depth ≤ cfg.maxDepth →
      processType cfg w pkg parent (.slice e) depth st =
        finishIndirect
          (processType cfg w pkg (some st.heap.length) e (depth + 1)
            (pushNode st
              { attachDoc cfg pkg (mkType pkg (.slice e)) with
                  kind := .Slice }))
          st.heap.length) ∧
    (lookupA st.table (typeKey (mkType pkg (.mapType k v))) = none →
      depth ≤ cfg.maxDepth →
      processType cfg w pkg parent (.mapType k v) depth st =
        finishMap
          (processType cfg w pkg (some st.heap.length) v (depth + 1)
            (setNode
              (processType cfg w pkg (some st.heap.length) k (depth + 1)
                (pushNode st
                  { attachDoc cfg pkg (mkType pkg (.mapType k v)) with
                      kind := .Map })).2
              st.heap.length
              (fun n =>
                { n with
                    keyType :=
                      (processType cfg w pkg (some st.heap.length) k (depth + 1)
                        (pushNode st
                          { attachDoc cfg pkg (mkType pkg (.mapType k v)) with
                              kind := .Map })).1 })))
          st.heap.length) ∧
    (lookupA st.table (typeKey (mkType pkg (.named pp nm))) = none →
      depth ≤ cfg.maxDepth →
      (if pkg.path = (attachDoc cfg pkg (mkType pkg (.named pp nm))).pkg
        then some pkg
        else findImport w pkg
          (attachDoc cfg pkg (mkType pkg (.named pp nm))).pkg) = some pkg' →
      processType cfg w pkg parent (.named pp nm) depth st =
        finishAlias
          (processType cfg w pkg' (some st.heap.length)
            (underlyingOf w pp nm) (depth + 1)
            (pushNode st
              { attachDoc cfg pkg (mkType pkg (.named pp nm)) with
                  kind := .Alias }))
          st.heap.length) ∧
    (lookupA st.table (typeKey (mkType pkg (.structLit body))) = none →
      depth ≤ cfg.maxDepth →
      (setNode (pushNode st (attachDoc cfg pkg (mkType pkg (.structLit body))))
          pAddr (fun n => { n with kind := .Struct })).heap[pAddr]? = some pn →
      lookupA pkg.typeInfos pn.name = some info →
      processType cfg w pkg (some pAddr) (.structLit body) depth st =
        (none,
          processStructFields cfg w pkg pAddr (typeKey pn) info.fields depth
            (setNode
              (pushNode st (attachDoc cfg pkg (mkType pkg (.structLit body))))
              pAddr (fun n => { n with kind := .Struct })))) ∧
    (processStructFields cfg w pkg pAddr pk (f :: fs) depth st =
      processStructFields cfg w pkg pAddr pk fs depth
        (processField cfg w pkg pAddr pk f depth st)) ∧
    (f.fieldType = some ft →
      processField cfg w pkg pAddr pk f depth st =
        fieldPost cfg pAddr pk f
          (processType cfg w pkg none ft depth st)) := by
  refine ⟨?_, ?_, ?_, ?_, ?_, ?_, ?_, ?_⟩
  · intro hmiss hd
    exact processType_depth_eq cfg w pkg parent t depth st hmiss hd
  · intro hmiss hd
    exact processType_pointer_eq cfg w pkg parent e depth st hmiss hd
  · intro hmiss hd
    exact processType_slice_eq cfg w pkg parent e depth st hmiss hd
  · intro hmiss hd
    exact processType_map_eq cfg w pkg parent k v depth st hmiss hd
  · intro hmiss hd himp
    exact processType_namedOk_eq cfg w pkg parent pp nm depth st pkg' hmiss hd
      himp
  · intro hmiss hd hp hinfo
    exact processType_struct_eq cfg w pkg body pAddr depth st pn info hmiss hd
      hp hinfo
  · exact processStructFields_cons_eq cfg w pkg pAddr pk f fs depth st
  · intro hft
    exact processField_some_eq cfg w pkg pAddr pk f ft depth st hft

/-- C2 witness: the depth-cutoff and depth-bookkeeping equations evaluated
at concrete inputs. -/
theorem C2_depth_limit_witness :
    (processType cfgA wB pkgB none (.basic "x") 3 {} =
      (some 0,
        pushNode {}
          { attachDoc cfgA pkgB (mkType pkgB (.basic "x")) with
              kind := .Unknown })) ∧
    (processType cfgA wB pkgB none (.pointer (.basic "x")) 0 {} =
      finishIndirect
        (processType cfgA wB pkgB (some 0) (.basic "x") 1
          (pushNode {}
            { attachDoc cfgA pkgB (mkType pkgB (.pointer (.basic "x"))) with
                kind := .Pointer }))
        0) ∧
    (processType cfgA wA pkgA none (.named "P" "S") 0 {} =
      finishAlias
        (processType cfgA wA pkgA (some 0) (underlyingOf wA "P" "S") 1
          (pushNode {}
            { attachDoc cfgA pkgA (mkType pkgA (.named "P" "S")) with
                kind := .Alias }))
        0) ∧
    (processType cfgA wA pkgA (some 0) (.structLit "x string") 0 stHit =
      (none,
        processStructFields cfgA wA pkgA 0 (typeKey pnS) infoS.fields 0
          (setNode
            (pushNode stHit
              (attachDoc cfgA pkgA (mkType pkgA (.structLit "x string"))))
            0 (fun n => { n with kind := .Struct })))) ∧
    (processField cfgA wA pkgA 0 ("P.S") fPlain 0 stHit =
      fieldPost cfgA 0 ("P.S") fPlain
        (processType cfgA wA pkgA none (.basic "string") 0 stHit)) := by
  refine ⟨?_, ?_, ?_, ?_, ?_⟩
  · exact (C2_depth_limit cfgA wB pkgB pkgB none (.basic "x") (.basic "x")
      (.basic "x") (.basic "x") ("") ("") ("") fPlain (.basic "x") [] ("") 0
      pnS infoS 3 {}).1 (by decide) (by decide)
  · exact (C2_depth_limit cfgA wB pkgB pkgB none (.basic "x") (.basic "x")
      (.basic "x") (.basic "x") ("") ("") ("") fPlain (.basic "x") [] ("") 0
      pnS infoS 0 {}).2.1 (by decide) (by decide)
  · exact (C2_depth_limit cfgA wA pkgA pkgA none (.basic "x") (.basic "x")
      (.basic "x") (.basic "x") ("P") ("S") ("") fPlain (.basic "x") [] ("") 0
      pnS infoS 0 {}).2.2.2.2.1 (by decide) (by decide) (by decide)
  · exact (C2_depth_limit cfgA wA pkgA pkgA (some 0) (.basic "x") (.basic "x")
      (.basic "x") (.basic "x") ("P") ("S") ("x string") fPlain (.basic "x")
      [] ("") 0 pnS infoS 0 stHit).2.2.2.2.2.1 (by decide) (by decide)
      (by decide) (by decide)
  · exact (C2_depth_limit cfgA wA pkgA pkgA none (.basic "x") (.basic "x")
      (.basic "x") (.basic "x") ("") ("") ("") fPlain (.basic "string") []
      ("P.S") 0 pnS infoS 0 stHit).2.2.2.2.2.2.2 (by decide)



theorem processDecl_eq (cfg : Config) (w : World) (pkg : Pkg)
    (key : String × String) (d : PkgDecl) (st : PState)
    (hig : shouldIgnoreType cfg (pkg.path ++ "." ++ d.name) = false)
    (hexp : d.exported = true) :
    processDecl cfg w pkg key d st =
      declPost key d (declResolve cfg w pkg (pkg.path ++ "." ++ d.name) d st) := by
  unfold processDecl
  rw [hig, hexp]
  simp

theorem modifyGV_heap (st : PState) (key : String × String)
    (f : GVInfo → GVInfo) : (modifyGV st key f).heap = st.heap := by
  unfold modifyGV; cases lookupA st.gvs key <;> rfl

theorem modifyGV_lookup (st : PState) (key : String × String)
    (f : GVInfo → GVInfo) (g : GVInfo) (h : lookupA st.gvs key = some g) :
    lookupA (modifyGV st key f).gvs key = some (f g) := by
  unfold modifyGV
  simp only [h]
  exact lookupA_insertA_self _ _ _

theorem setNode_gvs (st : PState) (a : Addr) (f : TypeNode → TypeNode) :
    (setNode st a f).gvs = st.gvs := rfl

/-- C10: an exported, non-ignored declaration whose resolved node has kind
Basic is never added to the group/version's types mapping; a root-object
marker on it still records the kind name in the accumulator and attaches the
GroupVersionKind to the node. -/
theorem C10_basic_not_added (cfg : Config) (w : World) (pkg : Pkg)
    (key : String × String) (d : PkgDecl) (st st1 : PState) (a : Addr)
    (n : TypeNode) (gvi : GVInfo)
    (hexp : d.exported = true)
    (hig : shouldIgnoreType cfg (pkg.path ++ "." ++ d.name) = false)
    (hres : declResolve cfg w pkg (pkg.path ++ "." ++ d.name) d st =
      (some a, st1))
    (hn : st1.heap[a]? = some n)
    (hbasic : n.kind = .Basic)
    (hgvi : lookupA st1.gvs key = some gvi) :
    (d.rootMarker = false → processDecl cfg w pkg key d st = st1) ∧
    (d.rootMarker = true →
      ∃ gvi', lookupA (processDecl cfg w pkg key d st).gvs key = some gvi' ∧
        gvi'.typesM = gvi.typesM ∧
        d.name ∈ gvi'.kinds ∧
        (processDecl cfg w pkg key d st).heap[a]? =
          some { n with gvk := some ⟨key.1, key.2, d.name⟩ }) := by
  rw [processDecl_eq cfg w pkg key d st hig hexp, hres]
  unfold declPost
  simp only [hn, hbasic, ne_eq, eq_self_iff_true, not_true, ite_false]
  constructor
  · intro hroot
    rw [hroot]
    simp
  · intro hroot
    rw [hroot, if_pos rfl]
    refine ⟨{ gvi with
        kinds := if d.name ∈ gvi.kinds then gvi.kinds else gvi.kinds ++ [d.name] },
      ?_, rfl, ?_, ?_⟩
    · rw [setNode_gvs]
      exact modifyGV_lookup st1 key _ gvi hgvi
    · by_cases hmem : d.name ∈ gvi.kinds
      · simp [hmem]
      · simp [hmem]
    · have hh : (modifyGV st1 key (fun g =>
          { g with kinds :=
              if d.name ∈ g.kinds then g.kinds
              else g.kinds ++ [d.name] })).heap[a]? = some n := by
        rw [modifyGV_heap]; exact hn
      rw [← hbasic]
      exact setNode_get_self _ a _ n hh

def gvi0 : GVInfo := { group := "g", version := "v1" }

/-- A run state holding one registered group/version accumulator. -/
def stGV : PState := { gvs := [(("g", "v1"), gvi0)] }

/-- stGV after resolving `string` once. -/
def stGV1 : PState :=
  { heap := [{ id := "string", name := "string", kind := .Basic }],
    table := [("string", 0)], gvs := [(("g", "v1"), gvi0)] }

/-- An exported, root-marked declaration whose descriptor is the basic type
`string` (a type alias declaration such as `type SAlias = string`). -/
def dSA : PkgDecl :=
  { name := "SAlias", typ := .basic "string", rootMarker := true }

/-- C10 witness: a root-marked alias of `string` registers its kind name and
GVK but stays out of the types mapping. -/
theorem C10_basic_not_added_witness :
    ∃ gvi', lookupA (processDecl cfgA wB pkgB ("g", "v1") dSA stGV).gvs
        ("g", "v1") = some gvi' ∧
      gvi'.typesM = gvi0.typesM ∧
      dSA.name ∈ gvi'.kinds ∧
      (processDecl cfgA wB pkgB ("g", "v1") dSA stGV).heap[0]? =
        some { id := "string", name := "string", kind := .Basic,
               gvk := some ⟨"g", "v1", "SAlias"⟩ } :=
  (C10_basic_not_added cfgA wB pkgB ("g", "v1") dSA stGV stGV1 0
    { id := "string", name := "string", kind := .Basic } gvi0 rfl (by decide)
    (by rw [show declResolve cfgA wB pkgB (pkgB.path ++ "." ++ dSA.name) dSA
            stGV =
          processType cfgA wB pkgB none dSA.typ 0 stGV from rfl,
        processType.eq_def]
        rfl)
    (by decide) rfl (by decide)).2 rfl



theorem setNode_fields_get (st : PState) (a : Addr) (g : List Field)
    (m : TypeNode) (hm : st.heap[a]? = some m) :
    (setNode st a (fun n => { n with fields := n.fields ++ g })).heap[a]? =
      some { m with fields := m.fields ++ g } :=
  setNode_get_self st a _ m hm

theorem processField_some_post (cfg : Config) (w : World) (pkg : Pkg)
    (pAddr : Addr) (pk : String) (f : RawField) (t : GoType) (depth : Nat)
    (st st1 : PState) (c : Addr) (n : TypeNode)
    (hft : f.fieldType = some t)
    (hres : processType cfg w pkg none t depth st = (some c, st1))
    (hn : st1.heap[c]? = some n) :
    processField cfg w pkg pAddr pk f depth st =
      (if shouldIgnoreField cfg pk (buildField f c n.name).name then
        setNode st1 c (fun m => { m with imported := false })
      else
        addReference
          (setNode (setNode st1 c (fun m => { m with imported := false }))
            pAddr
            (fun m => { m with fields := m.fields ++ [buildField f c n.name] }))
          pAddr (some c)) := by
  rw [processField_some_eq cfg w pkg pAddr pk f t depth st hft, hres]
  unfold fieldPost
  dsimp only
  rw [setNode_get_self st1 c (fun m => { m with imported := false }) n hn]

theorem processField_fields_append (cfg : Config) (w : World) (pkg : Pkg)
    (pAddr : Addr) (pk : String) (f : RawField) (depth : Nat) (st : PState)
    (pn : TypeNode) (hp : st.heap[pAddr]? = some pn) :
    ∃ pn' l, (processField cfg w pkg pAddr pk f depth st).heap[pAddr]? =
        some pn' ∧ pn'.fields = pn.fields ++ l := by
  cases hft : f.fieldType with
  | none =>
    rw [processField_none_eq cfg w pkg pAddr pk f depth st hft]
    exact ⟨pn, [], hp, by simp⟩
  | some t =>
    have hfr := processType_frame cfg w pkg none t depth st (pAddr + 1)
      (List.getElem?_eq_some.mp hp).1 (by intro p h; cases h)
    obtain ⟨m, hm, hmf⟩ :
        ∃ m, (processType cfg w pkg none t depth st).2.heap[pAddr]? = some m ∧
          m.fields = pn.fields := by
      rcases hfr.2 pAddr pn (Nat.lt_succ_self _) hp with h | h
      · exact ⟨pn, h, rfl⟩
      · exact ⟨{ pn with imported := false }, h, rfl⟩
    rw [processField_some_eq cfg w pkg pAddr pk f t depth st hft]
    unfold fieldPost
    cases hres1 : (processType cfg w pkg none t depth st).1 with
    | none =>
      exact ⟨m, [], hm, by rw [hmf]; simp⟩
    | some c =>
      dsimp only
      obtain ⟨m2, hm2, hm2f⟩ :
          ∃ m2, (setNode (processType cfg w pkg none t depth st).2 c
              (fun x => { x with imported := false })).heap[pAddr]? = some m2 ∧
            m2.fields = pn.fields := by
        by_cases hcp : c = pAddr
        · subst hcp
          exact ⟨_, setNode_get_self _ c _ m hm, hmf⟩
        · refine ⟨m, ?_, hmf⟩
          rw [setNode_get_ne _ pAddr c _ (fun h => hcp h.symm)]
          exact hm
      split
      · exact ⟨m2, [], hm2, by rw [hm2f]; simp⟩
      · rw [addReference_heap, setNode_fields_get _ pAddr _ m2 hm2, hm2f]
        exact ⟨_, _, rfl, rfl⟩

theorem processStructFields_fields_append (cfg : Config) (w : World)
    (pkg : Pkg) (pAddr : Addr) (pk : String) (fs : List RawField)
    (depth : Nat) (st : PState) (pn : TypeNode)
    (hp : st.heap[pAddr]? = some pn) :
    ∃ pn' l, (processStructFields cfg w pkg pAddr pk fs depth st).heap[pAddr]? =
        some pn' ∧ pn'.fields = pn.fields ++ l := by
  induction fs generalizing st pn with
  | nil =>
    rw [processStructFields_nil_eq]
    exact ⟨pn, [], hp, by simp⟩
  | cons f rest ih =>
    rw [processStructFields_cons_eq]
    obtain ⟨pn1, l1, h1, hf1⟩ :=
      processField_fields_append cfg w pkg pAddr pk f depth st pn hp
    obtain ⟨pn2, l2, h2, hf2⟩ := ih _ _ h1
    exact ⟨pn2, l1 ++ l2, h2, by rw [hf2, hf1, List.append_assoc]⟩

/-- C8: field processing only appends to the parent struct node's field list
(so declared members surface in declaration order, modulo drops); a member
matching the (owning-type-identity, field-name) exclusion policy is dropped
before being appended and generates no reference edge (the state keeps only
the imported-flag clear); an accepted member is appended and registers the
field-type → struct reference edge via addReference. -/
theorem C8_field_order (cfg : Config) (w : World) (pkg : Pkg) (pAddr : Addr)
    (pk : String) (f : RawField) (t : GoType) (fs : List RawField)
    (depth : Nat) (st st1 : PState) (c : Addr) (n pn : TypeNode) :
    (st.heap[pAddr]? = some pn →
      ∃ pn' l,
        (processStructFields cfg w pkg pAddr pk fs depth st).heap[pAddr]? =
          some pn' ∧ pn'.fields = pn.fields ++ l) ∧
    (f.fieldType = some t →
      processType cfg w pkg none t depth st = (some c, st1) →
      st1.heap[c]? = some n →
      shouldIgnoreField cfg pk (buildField f c n.name).name = true →
      processField cfg w pkg pAddr pk f depth st =
        setNode st1 c (fun m => { m with imported := false })) ∧
    (f.fieldType = some t →
      processType cfg w pkg none t depth st = (some c, st1) →
      st1.heap[c]? = some n →
      shouldIgnoreField cfg pk (buildField f c n.name).name = false →
      processField cfg w pkg pAddr pk f depth st =
        addReference
          (setNode (setNode st1 c (fun m => { m with imported := false }))
            pAddr
            (fun m =>
              { m with fields := m.fields ++ [buildField f c n.name] }))
          pAddr (some c)) := by
  refine ⟨?_, ?_, ?_⟩
  · intro hp
    exact processStructFields_fields_append cfg w pkg pAddr pk fs depth st pn hp
  · intro hft hres hn hig
    rw [processField_some_post cfg w pkg pAddr pk f t depth st st1 c n hft hres
      hn, if_pos hig]
  · intro hft hres hn hig
    rw [processField_some_post cfg w pkg pAddr pk f t depth st st1 c n hft hres
      hn, if_neg (by rw [hig]; exact fun h => nomatch h)]



theorem addReferenceF_unwrap (h : List TypeNode) (pk : String) (fuel : Nat)
    (c : Addr) (node : TypeNode) (refs : Refs) (hn : h[c]? = some node)
    (hk : node.kind = .Pointer ∨ node.kind = .Slice) :
    addReferenceF h pk (fuel + 1) (some c) refs =
      addReferenceF h pk fuel node.underlying refs := by
  simp only [addReferenceF, hn]
  rcases hk with hk | hk <;> rw [hk]

theorem addReferenceF_map (h : List TypeNode) (pk : String) (fuel : Nat)
    (c : Addr) (node : TypeNode) (refs : Refs) (hn : h[c]? = some node)
    (hk : node.kind = .Map) :
    addReferenceF h pk (fuel + 1) (some c) refs =
      addReferenceF h pk fuel node.valueType
        (addReferenceF h pk fuel node.keyType refs) := by
  simp only [addReferenceF, hn]
  rw [hk]

theorem addReferenceF_record (h : List TypeNode) (pk : String) (fuel : Nat)
    (c : Addr) (node : TypeNode) (refs : Refs) (hn : h[c]? = some node)
    (hk : node.kind = .Alias ∨ node.kind = .Struct) :
    addReferenceF h pk (fuel + 1) (some c) refs =
      insertRef refs (typeKey node) pk := by
  simp only [addReferenceF, hn]
  rcases hk with hk | hk <;> rw [hk]

theorem addReferenceF_noop (h : List TypeNode) (pk : String) (fuel : Nat)
    (c : Addr) (node : TypeNode) (refs : Refs) (hn : h[c]? = some node)
    (hk : node.kind = .Basic ∨ node.kind = .Interface ∨ node.kind = .Array ∨
      node.kind = .Unsupported ∨ node.kind = .Unknown ∨ node.kind = .unset) :
    addReferenceF h pk (fuel + 1) (some c) refs = refs := by
  simp only [addReferenceF, hn]
  rcases hk with hk | hk | hk | hk | hk | hk <;> rw [hk]

theorem lookupA_append_right {κ α : Type} [DecidableEq κ]
    (l l' : List (κ × α)) (k : κ) (h : lookupA l k = none) :
    lookupA (l ++ l') k = lookupA l' k := by
  induction l with
  | nil => rfl
  | cons e rest ih =>
    obtain ⟨k1, v1⟩ := e
    simp only [lookupA] at h
    by_cases he : k1 = k
    · rw [if_pos he] at h; cases h
    · rw [if_neg he] at h
      rw [List.cons_append]
      simp only [lookupA, if_neg he]
      exact ih h

theorem insertRef_mem (refs : Refs) (bk pk : String) :
    ∃ qs, lookupA (insertRef refs bk pk) bk = some qs ∧ pk ∈ qs := by
  unfold insertRef
  cases hl : lookupA refs bk with
  | none =>
    refine ⟨[pk], ?_, by simp⟩
    rw [lookupA_append_right refs _ bk hl]
    simp [lookupA]
  | some ps =>
    refine ⟨addParent ps pk, lookupA_insertA_self _ _ _, ?_⟩
    unfold addParent
    by_cases hp : pk ∈ ps
    · simp [hp]
    · simp [hp]

theorem matAdd_table (a : Addr) (st : PState) (rk : String) :
    (matAdd a st rk).table = st.table := by
  unfold matAdd; cases lookupA st.table rk <;> rfl

theorem setNode_dom (st : PState) (a b : Addr) (f : TypeNode → TypeNode)
    (n : TypeNode) (h : st.heap[b]? = some n) :
    ∃ n', (setNode st a f).heap[b]? = some n' := by
  by_cases hab : a = b
  · subst hab
    exact ⟨f n, setNode_get_self st a f n h⟩
  · exact ⟨n, by rw [setNode_get_ne st b a f (fun hh => hab hh.symm)]; exact h⟩

theorem matAdd_dom (a : Addr) (st : PState) (rk : String) (b : Addr)
    (n : TypeNode) (h : st.heap[b]? = some n) :
    ∃ n', (matAdd a st rk).heap[b]? = some n' := by
  unfold matAdd
  cases lookupA st.table rk with
  | none => exact ⟨n, h⟩
  | some ra => exact setNode_dom st a b _ n h

theorem matAdd_memP (a : Addr) (st : PState) (rk : String) (b : Addr)
    (pa : Addr) (h : ∃ n, st.heap[b]? = some n ∧ pa ∈ n.references) :
    ∃ n', (matAdd a st rk).heap[b]? = some n' ∧ pa ∈ n'.references := by
  obtain ⟨n, hn, hm⟩ := h
  unfold matAdd
  cases lookupA st.table rk with
  | none => exact ⟨n, hn, hm⟩
  | some ra =>
    by_cases hab : a = b
    · subst hab
      exact ⟨_, setNode_get_self st a _ n hn, by simp [hm]⟩
    · exact ⟨n,
        by rw [setNode_get_ne st b a _ (fun hh => hab hh.symm)]; exact hn, hm⟩

theorem matFoldl_table (a : Addr) (ps : List String) (st : PState) :
    (ps.foldl (matAdd a) st).table = st.table := by
  induction ps generalizing st with
  | nil => rfl
  | cons rk rest ih => rw [List.foldl_cons, ih, matAdd_table]

theorem matFoldl_memP (a : Addr) (ps : List String) (st : PState)
    (b pa : Addr) (h : ∃ n, st.heap[b]? = some n ∧ pa ∈ n.references) :
    ∃ n', (ps.foldl (matAdd a) st).heap[b]? = some n' ∧ pa ∈ n'.references := by
  induction ps generalizing st with
  | nil => exact h
  | cons rk rest ih => exact ih _ (matAdd_memP a st rk b pa h)

theorem matFoldl_dom (a : Addr) (ps : List String) (st : PState) (b : Addr)
    (n : TypeNode) (h : st.heap[b]? = some n) :
    ∃ n', (ps.foldl (matAdd a) st).heap[b]? = some n' := by
  induction ps generalizing st n with
  | nil => exact ⟨n, h⟩
  | cons rk rest ih =>
    obtain ⟨n2, h2⟩ := matAdd_dom a st rk b n h
    exact ih _ n2 h2

theorem matFoldl_estab (a : Addr) (ps : List String) (pkey : String)
    (pa : Addr) :
    ∀ st : PState, pkey ∈ ps → lookupA st.table pkey = some pa →
      (∃ n, st.heap[a]? = some n) →
      ∃ n', (ps.foldl (matAdd a) st).heap[a]? = some n' ∧
        pa ∈ n'.references := by
  induction ps with
  | nil =>
    intro st hmem _ _
    cases hmem
  | cons rk rest ih =>
    intro st hmem hpa hdom
    rw [List.foldl_cons]
    rcases List.mem_cons.mp hmem with he | he
    · subst he
      obtain ⟨n, hn⟩ := hdom
      have hset : (matAdd a st pkey).heap[a]? =
          some { n with references := n.references ++ [pa] } := by
        unfold matAdd
        rw [hpa]
        exact setNode_get_self st a _ n hn
      exact matFoldl_memP a rest _ a pa ⟨_, hset, by simp⟩
    · obtain ⟨n, hn⟩ := hdom
      exact ih (matAdd a st rk) he (by rw [matAdd_table]; exact hpa)
        (matAdd_dom a st rk a n hn)

theorem matStep_ok_table (st : PState) (e : String × List String)
    (st2 : PState) (h : matStep st e = .ok st2) : st2.table = st.table := by
  unfold matStep at h
  cases hl : lookupA st.table e.1 with
  | none => rw [hl] at h; cases h
  | some a =>
    rw [hl] at h
    cases h
    exact matFoldl_table a e.2 st

theorem matStep_ok_dom (st : PState) (e : String × List String) (st2 : PState)
    (b : Addr) (n : TypeNode) (h : matStep st e = .ok st2)
    (hb : st.heap[b]? = some n) : ∃ n', st2.heap[b]? = some n' := by
  unfold matStep at h
  cases hl : lookupA st.table e.1 with
  | none => rw [hl] at h; cases h
  | some a =>
    rw [hl] at h
    cases h
    exact matFoldl_dom a e.2 st b n hb

theorem matStep_ok_memP (st : PState) (e : String × List String) (st2 : PState)
    (b pa : Addr) (h : matStep st e = .ok st2)
    (hm : ∃ n, st.heap[b]? = some n ∧ pa ∈ n.references) :
    ∃ n', st2.heap[b]? = some n' ∧ pa ∈ n'.references := by
  unfold matStep at h
  cases hl : lookupA st.table e.1 with
  | none => rw [hl] at h; cases h
  | some a =>
    rw [hl] at h
    cases h
    exact matFoldl_memP a e.2 st b pa hm

theorem matFold_cons_ok (e : String × List String)
    (l : List (String × List String)) (st st2 : PState)
    (hs : matStep st e = .ok st2) : matFold (e :: l) st = matFold l st2 := by
  conv_lhs => unfold matFold
  rw [hs]

theorem matFold_cons_err (e : String × List String)
    (l : List (String × List String)) (st : PState) (msg : String)
    (hs : matStep st e = .error msg) : matFold (e :: l) st = .error msg := by
  unfold matFold
  rw [hs]

theorem matFold_table (l : List (String × List String)) (st st' : PState)
    (h : matFold l st = .ok st') : st'.table = st.table := by
  induction l generalizing st with
  | nil =>
    cases h
    rfl
  | cons e rest ih =>
    unfold matFold at h
    cases hm : matStep st e with
    | error s => rw [hm] at h; cases h
    | ok st2 =>
      rw [hm] at h
      rw [ih st2 h, matStep_ok_table st e st2 hm]

theorem matFold_memP (l : List (String × List String)) (st st' : PState)
    (b pa : Addr) (h : matFold l st = .ok st')
    (hm : ∃ n, st.heap[b]? = some n ∧ pa ∈ n.references) :
    ∃ n', st'.heap[b]? = some n' ∧ pa ∈ n'.references := by
  induction l generalizing st with
  | nil =>
    cases h
    exact hm
  | cons e rest ih =>
    unfold matFold at h
    cases hs : matStep st e with
    | error s => rw [hs] at h; cases h
    | ok st2 =>
      rw [hs] at h
      exact ih st2 h (matStep_ok_memP st e st2 b pa hs hm)

theorem mat_materialize (st st' : PState)
    (l1 l2 : List (String × List String)) (bk pkey : String)
    (ps : List String) (a pa : Addr) (n0 : TypeNode)
    (hrefs : st.refs = l1 ++ (bk, ps) :: l2)
    (hps : pkey ∈ ps)
    (hbk : lookupA st.table bk = some a)
    (hpk : lookupA st.table pkey = some pa)
    (hdom : st.heap[a]? = some n0)
    (hok : materializeReferences st = .ok st') :
    ∃ n, st'.heap[a]? = some n ∧ pa ∈ n.references := by
  unfold materializeReferences at hok
  rw [hrefs] at hok
  have hsplit : ∀ (m1 : List (String × List String)) (s : PState),
      lookupA s.table bk = some a → (∃ n, s.heap[a]? = some n) →
      lookupA s.table pkey = some pa →
      matFold (m1 ++ (bk, ps) :: l2) s = .ok st' →
      ∃ n, st'.heap[a]? = some n ∧ pa ∈ n.references := by
    intro m1
    induction m1 with
    | nil =>
      intro s hbk1 hdom1 hpk1 hok1
      rw [List.nil_append] at hok1
      have hstep : matStep s (bk, ps) = Except.ok (ps.foldl (matAdd a) s) := by
        unfold matStep
        dsimp only
        rw [hbk1]
      rw [matFold_cons_ok (bk, ps) l2 s _ hstep] at hok1
      exact matFold_memP l2 _ st' a pa hok1
        (matFoldl_estab a ps pkey pa s hps hpk1 hdom1)
    | cons e m ih =>
      intro s hbk1 hdom1 hpk1 hok1
      rw [List.cons_append] at hok1
      cases hs : matStep s e with
      | error msg =>
        rw [matFold_cons_err e (m ++ (bk, ps) :: l2) s msg hs] at hok1
        cases hok1
      | ok s2 =>
        rw [matFold_cons_ok e (m ++ (bk, ps) :: l2) s s2 hs] at hok1
        obtain ⟨n1, hn1⟩ := hdom1
        refine ih s2 ?_ ?_ ?_ hok1
        · rw [matStep_ok_table s e s2 hs]; exact hbk1
        · exact matStep_ok_dom s e s2 a n1 hs hn1
        · rw [matStep_ok_table s e s2 hs]; exact hpk1
  exact hsplit l1 st hbk ⟨n0, hdom⟩ hpk hok

theorem addReference_record (st : PState) (p c0 : Addr) (pn0 child : TypeNode)
    (hp : st.heap[p]? = some pn0) (hc : st.heap[c0]? = some child)
    (hk : child.kind = .Alias ∨ child.kind = .Struct) :
    (addReference st p (some c0)).refs =
      insertRef st.refs (typeKey child) (typeKey pn0) := by
  unfold addReference
  rw [hp]
  exact addReferenceF_record st.heap (typeKey pn0) st.heap.length c0 child
    st.refs hc hk

/-- C4: addReference unwraps the child one layer per step through Pointer and
Slice nodes and through Map key/value, records the parent's identity in the
child's back-reference set exactly for Alias and Struct kinds (a no-op on
every other kind — including Array, which the switch of processor.go lines
457-459 does not unwrap), a recorded entry makes the parent identity a member
of the child identity's parent set, and a recorded entry whose child and
parent identities both resolve in the canonical table materializes into the
child node's References list. -/
theorem C4_addReference (h : List TypeNode) (pk : String) (fuel : Nat)
    (c : Addr) (node : TypeNode) (refs : Refs) (st sr st' : PState)
    (p c0 : Addr) (pn0 child : TypeNode)
    (l1 l2 : List (String × List String)) (bk pkey : String)
    (ps : List String) (a pa : Addr) (n0 : TypeNode) :
    (h[c]? = some node →
      ((node.kind = .Pointer ∨ node.kind = .Slice) →
        addReferenceF h pk (fuel + 1) (some c) refs =
          addReferenceF h pk fuel node.underlying refs) ∧
      (node.kind = .Map →
        addReferenceF h pk (fuel + 1) (some c) refs =
          addReferenceF h pk fuel node.valueType
            (addReferenceF h pk fuel node.keyType refs)) ∧
      ((node.kind = .Alias ∨ node.kind = .Struct) →
        addReferenceF h pk (fuel + 1) (some c) refs =
          insertRef refs (typeKey node) pk) ∧
      ((node.kind = .Basic ∨ node.kind = .Interface ∨ node.kind = .Array ∨
          node.kind = .Unsupported ∨ node.kind = .Unknown ∨
          node.kind = .unset) →
        addReferenceF h pk (fuel + 1) (some c) refs = refs)) ∧
    (sr.heap[p]? = some pn0 → sr.heap[c0]? = some child →
      (child.kind = .Alias ∨ child.kind = .Struct) →
      (addReference sr p (some c0)).refs =
        insertRef sr.refs (typeKey child) (typeKey pn0)) ∧
    (∃ qs, lookupA (insertRef refs bk pk) bk = some qs ∧ pk ∈ qs) ∧
    (st.refs = l1 ++ (bk, ps) :: l2 → pkey ∈ ps →
      lookupA st.table bk = some a → lookupA st.table pkey = some pa →
      st.heap[a]? = some n0 → materializeReferences st = .ok st' →
      ∃ n, st'.heap[a]? = some n ∧ pa ∈ n.references) := by
  refine ⟨fun hn => ⟨?_, ?_, ?_, ?_⟩, ?_, ?_, ?_⟩
  · exact addReferenceF_unwrap h pk fuel c node refs hn
  · exact addReferenceF_map h pk fuel c node refs hn
  · exact addReferenceF_record h pk fuel c node refs hn
  · exact addReferenceF_noop h pk fuel c node refs hn
  · exact addReference_record sr p c0 pn0 child
  · exact insertRef_mem refs bk pk
  · intro h1 h2 h3 h4 h5 h6
    exact mat_materialize st st' l1 l2 bk pkey ps a pa n0 h1 h2 h3 h4 h5 h6

/-- A heap whose node 0 has kind Array with the struct node 1 underlying it:
addReference records nothing for the Array child (the spec's unwrap list
includes Array, the switch of processor.go lines 457-459 does not), while the
same call on the underlying struct does record the parent. -/
def hArrC4 : List TypeNode :=
  [{ id := "[2]P.S", name := "S", pkg := "P", kind := .Array,
     underlying := some 1 },
   { id := "P.S", name := "S", pkg := "P", kind := .Struct }]

/-- C4 counterexample: the Array-kind child is not unwrapped — the reference
set stays empty — although unwrapping it (as the spec describes) would reach
the struct at its underlying address and record the parent. -/
theorem C4_counterexample :
    (hArrC4[0]?.map TypeNode.kind = some Kind.Array ∧
      hArrC4[0]?.bind TypeNode.underlying = some 1) ∧
    addReferenceF hArrC4 "P.X" 3 (some 0) [] = [] ∧
    addReferenceF hArrC4 "P.X" 2 (some 1) [] = [("P.S", ["P.X"])] := by
  decide



theorem mem_insertA {κ α : Type} [DecidableEq κ] (l : List (κ × α)) (k : κ)
    (v : α) (p : κ × α) (h : p ∈ insertA l k v) : p ∈ l ∨ p = (k, v) := by
  induction l with
  | nil =>
    simp only [insertA] at h
    rcases List.mem_cons.mp h with h1 | h1
    · exact Or.inr h1
    · cases h1
  | cons e rest ih =>
    obtain ⟨k1, v1⟩ := e
    simp only [insertA] at h
    by_cases he : k1 = k
    · rw [if_pos he] at h
      rcases List.mem_cons.mp h with h1 | h1
      · subst he
        exact Or.inr (by rw [h1])
      · exact Or.inl (List.mem_cons_of_mem _ h1)
    · rw [if_neg he] at h
      rcases List.mem_cons.mp h with h1 | h1
      · exact Or.inl (by rw [h1]; exact List.mem_cons_self _ _)
      · rcases ih h1 with h2 | h2
        · exact Or.inl (List.mem_cons_of_mem _ h2)
        · exact Or.inr h2

theorem assembleStep_inv (cfg : Config) (st : PState)
    (acc : List (String × Addr)) (e : String × Addr)
    (acc2 : List (String × Addr)) (h : assembleStep cfg st acc e = .ok acc2)
    (hacc : ∀ p ∈ acc, ∃ (b : Addr) (n : TypeNode), st.heap[b]? = some n ∧
      shouldIgnoreType cfg (typeKey n) = false ∧
      lookupA st.table (typeKey n) = some p.2) :
    ∀ p ∈ acc2, ∃ (b : Addr) (n : TypeNode), st.heap[b]? = some n ∧
      shouldIgnoreType cfg (typeKey n) = false ∧
      lookupA st.table (typeKey n) = some p.2 := by
  unfold assembleStep at h
  cases hh : st.heap[e.2]? with
  | none => rw [hh] at h; cases h
  | some t =>
    rw [hh] at h
    have h2 : assembleKeep cfg st acc e.1 t = .ok acc2 := h
    unfold assembleKeep at h2
    by_cases hig : shouldIgnoreType cfg (typeKey t) = true
    · rw [if_pos hig] at h2
      cases h2
      exact hacc
    · rw [if_neg hig] at h2
      cases hl : lookupA st.table (typeKey t) with
      | none => rw [hl] at h2; cases h2
      | some a2 =>
        rw [hl] at h2
        cases h2
        intro p hp
        rcases mem_insertA acc e.1 a2 p hp with hmem | heq
        · exact hacc p hmem
        · subst heq
          refine ⟨e.2, t, hh, ?_, hl⟩
          revert hig
          cases shouldIgnoreType cfg (typeKey t) <;> simp

theorem assembleFold_ok_nil (cfg : Config) (st : PState)
    (acc : List (String × Addr)) : assembleFold cfg st [] acc = .ok acc := rfl

theorem assembleFold_cons_ok (cfg : Config) (st : PState)
    (l : List (String × Addr)) (acc : List (String × Addr))
    (e : String × Addr) (acc2 : List (String × Addr))
    (hs : assembleStep cfg st acc e = .ok acc2) :
    assembleFold cfg st (e :: l) acc = assembleFold cfg st l acc2 := by
  conv_lhs => unfold assembleFold
  rw [hs]

theorem assembleFold_cons_err (cfg : Config) (st : PState)
    (l : List (String × Addr)) (acc : List (String × Addr))
    (e : String × Addr) (msg : String)
    (hs : assembleStep cfg st acc e = .error msg) :
    assembleFold cfg st (e :: l) acc = .error msg := by
  unfold assembleFold
  rw [hs]

theorem assembleFold_inv (cfg : Config) (st : PState) :
    ∀ (l acc ts : List (String × Addr)),
      assembleFold cfg st l acc = .ok ts →
      (∀ p ∈ acc, ∃ (b : Addr) (n : TypeNode), st.heap[b]? = some n ∧
        shouldIgnoreType cfg (typeKey n) = false ∧
        lookupA st.table (typeKey n) = some p.2) →
      ∀ p ∈ ts, ∃ (b : Addr) (n : TypeNode), st.heap[b]? = some n ∧
        shouldIgnoreType cfg (typeKey n) = false ∧
        lookupA st.table (typeKey n) = some p.2 := by
  intro l
  induction l with
  | nil =>
    intro acc ts h hacc
    cases h
    exact hacc
  | cons e rest ih =>
    intro acc ts h hacc
    cases hs : assembleStep cfg st acc e with
    | error msg =>
      rw [assembleFold_cons_err cfg st rest acc e msg hs] at h
      cases h
    | ok acc2 =>
      rw [assembleFold_cons_ok cfg st rest acc e acc2 hs] at h
      exact ih acc2 ts h (assembleStep_inv cfg st acc e acc2 hs hacc)

theorem assembleGV_typesM (cfg : Config) (st : PState) (gvi : GVInfo)
    (d : GVDetails) (h : assembleGV cfg st gvi = .ok d) :
    ∀ p ∈ d.typesM, ∃ (b : Addr) (n : TypeNode), st.heap[b]? = some n ∧
      shouldIgnoreType cfg (typeKey n) = false ∧
      lookupA st.table (typeKey n) = some p.2 := by
  unfold assembleGV at h
  cases hf : assembleFold cfg st gvi.typesM [] with
  | error s => rw [hf] at h; cases h
  | ok ts =>
    rw [hf] at h
    cases h
    intro p hp
    exact assembleFold_inv cfg st gvi.typesM [] ts hf
      (fun p hp => nomatch hp) p hp

theorem mem_insertSortedGV (x y : GVDetails) (l : List GVDetails)
    (h : x ∈ insertSortedGV y l) : x = y ∨ x ∈ l := by
  induction l with
  | nil =>
    unfold insertSortedGV at h
    rcases List.mem_cons.mp h with h1 | h1
    · exact Or.inl h1
    · cases h1
  | cons z rest ih =>
    unfold insertSortedGV at h
    by_cases hg : gvLess y z = true
    · rw [if_pos hg] at h
      rcases List.mem_cons.mp h with h1 | h1
      · exact Or.inl h1
      · exact Or.inr h1
    · rw [if_neg hg] at h
      rcases List.mem_cons.mp h with h1 | h1
      · exact Or.inr (by rw [h1]; exact List.mem_cons_self _ _)
      · rcases ih h1 with h2 | h2
        · exact Or.inl h2
        · exact Or.inr (List.mem_cons_of_mem _ h2)

theorem mem_sortGVs (x : GVDetails) (l : List GVDetails) (h : x ∈ sortGVs l) :
    x ∈ l := by
  have hgen : ∀ (m acc : List GVDetails),
      x ∈ m.foldl (fun acc y => insertSortedGV y acc) acc →
      x ∈ m ∨ x ∈ acc := by
    intro m
    induction m with
    | nil =>
      intro acc hx
      exact Or.inr hx
    | cons y rest ih =>
      intro acc hx
      rw [List.foldl_cons] at hx
      rcases ih _ hx with h1 | h1
      · exact Or.inl (List.mem_cons_of_mem _ h1)
      · rcases mem_insertSortedGV x y acc h1 with h2 | h2
        · exact Or.inl (by rw [h2]; exact List.mem_cons_self _ _)
        · exact Or.inr h2
  rcases hgen l [] h with h1 | h1
  · exact h1
  · cases h1

theorem gvFold_cons_ok (cfg : Config) (st : PState)
    (e : (String × String) × GVInfo) (l : List ((String × String) × GVInfo))
    (acc : List GVDetails) (d0 : GVDetails)
    (hs : assembleGV cfg st e.2 = .ok d0) :
    gvFold cfg st (e :: l) acc = gvFold cfg st l (acc ++ [d0]) := by
  conv_lhs => unfold gvFold
  rw [hs]

theorem gvFold_cons_err (cfg : Config) (st : PState)
    (e : (String × String) × GVInfo) (l : List ((String × String) × GVInfo))
    (acc : List GVDetails) (msg : String)
    (hs : assembleGV cfg st e.2 = .error msg) :
    gvFold cfg st (e :: l) acc = .error msg := by
  unfold gvFold
  rw [hs]

theorem gvFold_mem (cfg : Config) (st : PState) :
    ∀ (l : List ((String × String) × GVInfo)) (acc ds : List GVDetails)
      (d : GVDetails), gvFold cfg st l acc = .ok ds → d ∈ ds →
      d ∈ acc ∨ ∃ e ∈ l, assembleGV cfg st e.2 = .ok d := by
  intro l
  induction l with
  | nil =>
    intro acc ds d h hd
    cases h
    exact Or.inl hd
  | cons e rest ih =>
    intro acc ds d h hd
    cases hs : assembleGV cfg st e.2 with
    | error msg =>
      rw [gvFold_cons_err cfg st e rest acc msg hs] at h
      cases h
    | ok d0 =>
      rw [gvFold_cons_ok cfg st e rest acc d0 hs] at h
      rcases ih _ _ _ h hd with h1 | h1
      · rcases List.mem_append.mp h1 with h2 | h2
        · exact Or.inl h2
        · have hdd : d = d0 := by simpa using h2
          exact Or.inr ⟨e, List.mem_cons_self _ _, hdd ▸ hs⟩
      · obtain ⟨e2, he2, hok⟩ := h1
        exact Or.inr ⟨e2, List.mem_cons_of_mem _ he2, hok⟩

theorem runProcess_ok_inv (cfg : Config) (w : World) (ds : List GVDetails)
    (st' : PState) (h : runProcess cfg w = .ok (ds, st')) :
    ∃ ds0, materializeReferences (inlineTypes (findAPITypes cfg w {})) =
        .ok st' ∧ gvFold cfg st' st'.gvs [] = .ok ds0 ∧ ds = sortGVs ds0 := by
  unfold runProcess runPost at h
  cases hm : materializeReferences (inlineTypes (findAPITypes cfg w {})) with
  | error s => rw [hm] at h; cases h
  | ok stM =>
    rw [hm] at h
    have h2 : runAssemble cfg stM = Except.ok (ds, st') := h
    unfold runAssemble at h2
    cases hg : gvFold cfg stM stM.gvs [] with
    | error s => rw [hg] at h2; cases h2
    | ok ds0 =>
      rw [hg] at h2
      have h3 : (Except.ok (sortGVs ds0, stM) :
          Except String (List GVDetails × PState)) = Except.ok (ds, st') := h2
      injection h3 with h4
      injection h4 with h5 h6
      subst h6
      subst h5
      exact ⟨ds0, rfl, hg, rfl⟩

/-- C5 (amended): after the run, every entry of every group/version's types
mapping passed the exclusion filter — it resolves through a heap node whose
identity is not excluded and whose canonical-table binding supplied the
stored address.  (The materialized References lists are NOT filtered: the
counterexample exhibits an excluded identity inside a retained node's
references.) -/
theorem C5_exclusion (cfg : Config) (w : World) (ds : List GVDetails)
    (st' : PState) (d : GVDetails) (p : String × Addr)
    (hrun : runProcess cfg w = .ok (ds, st'))
    (hd : d ∈ ds) (hp : p ∈ d.typesM) :
    ∃ (b : Addr) (n : TypeNode), st'.heap[b]? = some n ∧ shouldIgnoreType cfg (typeKey n) = false ∧
      lookupA st'.table (typeKey n) = some p.2 := by
  obtain ⟨ds0, hm, hg, hds⟩ := runProcess_ok_inv cfg w ds st' hrun
  subst hds
  rcases gvFold_mem cfg st' st'.gvs [] ds0 d hg (mem_sortGVs d ds0 hd) with
    h1 | h1
  · cases h1
  · obtain ⟨e, _, hok⟩ := h1
    exact assembleGV_typesM cfg st' e.2 d hok p hp



/-- Field `b B` of the struct `P.A`. -/
def fB5 : RawField := { name := "b", fieldType := some (.named "P" "B") }

/-- Field `a A` of the struct `P.C`. -/
def fA5 : RawField := { name := "a", fieldType := some (.named "P" "A") }

def infoB5 : TypeInfo := {}

def infoA5 : TypeInfo := { fields := [fB5] }

def infoC5 : TypeInfo := { fields := [fA5] }

def dB5 : PkgDecl := { name := "B", typ := .named "P" "B" }

def dC5 : PkgDecl := { name := "C", typ := .named "P" "C" }

/-- A package declaring B and C; A is only reachable as C's field type. -/
def pkgC5 : Pkg :=
  { path := "P", shortName := "p", groupName := some "g",
    typeInfos := [("A", infoA5), ("B", infoB5), ("C", infoC5)],
    decls := [dB5, dC5] }

def wC5 : World :=
  { pkgs := [pkgC5], roots := ["P"],
    underlying := [(("P", "B"), .structLit ""), (("P", "A"), .structLit "a0"),
                   (("P", "C"), .structLit "c0")] }

/-- The excluded identity is `P.A`. -/
def cfgC5 : Config := { maxDepth := 5, excludedTypes := ["P.A"] }

def nBalias5 : TypeNode := { id := "P.B", name := "B", pkg := "P", kind := .Alias }

def nB5 : TypeNode := { id := "P.B", name := "B", pkg := "P", kind := .Struct }

def nBlit5 : TypeNode :=
  { id := "struct\x7b\x7d", name := "struct\x7b\x7d", pkg := "P" }

def nCalias5 : TypeNode := { id := "P.C", name := "C", pkg := "P", kind := .Alias }

def nC5a : TypeNode := { id := "P.C", name := "C", pkg := "P", kind := .Struct }

def nClit5 : TypeNode :=
  { id := "struct\x7bc0\x7d", name := "struct\x7bc0\x7d", pkg := "P" }

def nAalias5 : TypeNode := { id := "P.A", name := "A", pkg := "P", kind := .Alias }

def nA5a : TypeNode := { id := "P.A", name := "A", pkg := "P", kind := .Struct }

def nAlit5 : TypeNode :=
  { id := "struct\x7ba0\x7d", name := "struct\x7ba0\x7d", pkg := "P" }

def fdB5 : Field :=
  { name := "b", doc := "", type := 0, embedded := false, inlined := false }

def fdA5 : Field :=
  { name := "a", doc := "", type := 4, embedded := false, inlined := false }

def nA5b : TypeNode :=
  { id := "P.A", name := "A", pkg := "P", kind := .Struct, fields := [fdB5] }

def nC5b : TypeNode :=
  { id := "P.C", name := "C", pkg := "P", kind := .Struct, fields := [fdA5] }

/-- The node of `P.B` in the final output: its References contains address 4,
the node of the excluded identity `P.A`. -/
def nB5r : TypeNode :=
  { id := "P.B", name := "B", pkg := "P", kind := .Struct, references := [4] }

def nA5r : TypeNode :=
  { id := "P.A", name := "A", pkg := "P", kind := .Struct, fields := [fdB5],
    references := [2] }

def gvi5 : GVInfo := { group := "g", version := "p" }

def gviB5 : GVInfo := { group := "g", version := "p", typesM := [("B", 0)] }

def gviBC5 : GVInfo :=
  { group := "g", version := "p", typesM := [("B", 0), ("C", 2)] }

def stD1 : PState := { gvs := [(("g", "p"), gvi5)] }

def stp1 : PState := { heap := [nBalias5], gvs := [(("g", "p"), gvi5)] }

def stB1 : PState := { heap := [nB5, nBlit5], gvs := [(("g", "p"), gvi5)] }

def stB2 : PState :=
  { heap := [nB5, nBlit5], table := [("P.B", 0)], gvs := [(("g", "p"), gvi5)] }

def stB3 : PState :=
  { heap := [nB5, nBlit5], table := [("P.B", 0)], gvs := [(("g", "p"), gviB5)] }

def stp2 : PState :=
  { heap := [nB5, nBlit5, nCalias5], table := [("P.B", 0)],
    gvs := [(("g", "p"), gviB5)] }

def stpc : PState :=
  { heap := [nB5, nBlit5, nC5a, nClit5], table := [("P.B", 0)],
    gvs := [(("g", "p"), gviB5)] }

def stp3 : PState :=
  { heap := [nB5, nBlit5, nC5a, nClit5, nAalias5], table := [("P.B", 0)],
    gvs := [(("g", "p"), gviB5)] }

def stpa : PState :=
  { heap := [nB5, nBlit5, nC5a, nClit5, nA5a, nAlit5], table := [("P.B", 0)],
    gvs := [(("g", "p"), gviB5)] }

def stpa2 : PState :=
  { heap := [nB5, nBlit5, nC5a, nClit5, nA5b, nAlit5], table := [("P.B", 0)],
    refs := [("P.B", ["P.A"])], gvs := [(("g", "p"), gviB5)] }

def stA3 : PState :=
  { heap := [nB5, nBlit5, nC5a, nClit5, nA5b, nAlit5],
    table := [("P.B", 0), ("P.A", 4)], refs := [("P.B", ["P.A"])],
    gvs := [(("g", "p"), gviB5)] }

def stC2 : PState :=
  { heap := [nB5, nBlit5, nC5b, nClit5, nA5b, nAlit5],
    table := [("P.B", 0), ("P.A", 4)],
    refs := [("P.B", ["P.A"]), ("P.A", ["P.C"])],
    gvs := [(("g", "p"), gviB5)] }

def stC3 : PState :=
  { heap := [nB5, nBlit5, nC5b, nClit5, nA5b, nAlit5],
    table := [("P.B", 0), ("P.A", 4), ("P.C", 2)],
    refs := [("P.B", ["P.A"]), ("P.A", ["P.C"])],
    gvs := [(("g", "p"), gviB5)] }

def stFin5 : PState :=
  { heap := [nB5, nBlit5, nC5b, nClit5, nA5b, nAlit5],
    table := [("P.B", 0), ("P.A", 4), ("P.C", 2)],
    refs := [("P.B", ["P.A"]), ("P.A", ["P.C"])],
    gvs := [(("g", "p"), gviBC5)] }

/-- The final run state: B's node carries a reference to the excluded node. -/
def stOut5 : PState :=
  { heap := [nB5r, nBlit5, nC5b, nClit5, nA5r, nAlit5],
    table := [("P.B", 0), ("P.A", 4), ("P.C", 2)],
    refs := [("P.B", ["P.A"]), ("P.A", ["P.C"])],
    gvs := [(("g", "p"), gviBC5)] }

def gvOut5 : GVDetails :=
  { group := "g", version := "p", typesM := [("B", 0), ("C", 2)] }

/-- The concrete end-to-end run of the excluded-type world. -/
theorem runC5_eval : runProcess cfgC5 wC5 = Except.ok ([gvOut5], stOut5) := by
  have eBlit : processType cfgC5 wC5 pkgC5 (some 0) (.structLit "") 1 stp1 =
      (none, stB1) := by
    rw [processType_struct_eq cfgC5 wC5 pkgC5 "" 0 1 stp1 nB5 infoB5
      (by decide) (by decide) (by decide) (by decide)]
    rw [show (setNode (pushNode stp1
        (attachDoc cfgC5 pkgC5 (mkType pkgC5 (GoType.structLit "")))) 0
        (fun n => { n with kind := Kind.Struct })) = stB1 from (by decide)]
    rw [show infoB5.fields = ([] : List RawField) from rfl]
    rw [processStructFields_nil_eq]
  have eB : processType cfgC5 wC5 pkgC5 none (.named "P" "B") 0 stD1 =
      (some 0, stB2) := by
    rw [processType_namedOk_eq cfgC5 wC5 pkgC5 none "P" "B" 0 stD1 pkgC5
      (by decide) (by decide) (by decide)]
    rw [show (pushNode stD1 { attachDoc cfgC5 pkgC5
        (mkType pkgC5 (GoType.named "P" "B")) with kind := Kind.Alias }) = stp1
      from (by decide)]
    rw [show underlyingOf wC5 "P" "B" = GoType.structLit "" from (by decide)]
    rw [show stD1.heap.length = 0 from rfl]
    rw [show (0 + 1 : Nat) = 1 from rfl]
    rw [eBlit]
    decide
  have edB : processDecl cfgC5 wC5 pkgC5 ("g", "p") dB5 stD1 = stB3 := by
    rw [processDecl_eq cfgC5 wC5 pkgC5 ("g", "p") dB5 stD1 (by decide) rfl]
    rw [show declResolve cfgC5 wC5 pkgC5 (pkgC5.path ++ "." ++ dB5.name) dB5
        stD1 = processType cfgC5 wC5 pkgC5 none (GoType.named "P" "B") 0 stD1
      from rfl]
    rw [eB]
    decide
  have eHitB : processType cfgC5 wC5 pkgC5 none (.named "P" "B") 2 stpa =
      (some 0, stpa) :=
    processType_hit_eq cfgC5 wC5 pkgC5 none (.named "P" "B") 2 stpa 0
      (by decide)
  have eFieldB : processField cfgC5 wC5 pkgC5 4 "P.A" fB5 2 stpa = stpa2 := by
    rw [processField_some_eq cfgC5 wC5 pkgC5 4 "P.A" fB5 (GoType.named "P" "B")
      2 stpa rfl]
    rw [eHitB]
    decide
  have eAlit : processType cfgC5 wC5 pkgC5 (some 4) (.structLit "a0") 2 stp3 =
      (none, stpa2) := by
    rw [processType_struct_eq cfgC5 wC5 pkgC5 "a0" 4 2 stp3 nA5a infoA5
      (by decide) (by decide) (by decide) (by decide)]
    rw [show (setNode (pushNode stp3
        (attachDoc cfgC5 pkgC5 (mkType pkgC5 (GoType.structLit "a0")))) 4
        (fun n => { n with kind := Kind.Struct })) = stpa from (by decide)]
    rw [show typeKey nA5a = "P.A" from (by decide)]
    rw [show infoA5.fields = [fB5] from rfl]
    rw [processStructFields_cons_eq, processStructFields_nil_eq]
    rw [eFieldB]
  have eA : processType cfgC5 wC5 pkgC5 none (.named "P" "A") 1 stpc =
      (some 4, stA3) := by
    rw [processType_namedOk_eq cfgC5 wC5 pkgC5 none "P" "A" 1 stpc pkgC5
      (by decide) (by decide) (by decide)]
    rw [show (pushNode stpc { attachDoc cfgC5 pkgC5
        (mkType pkgC5 (GoType.named "P" "A")) with kind := Kind.Alias }) = stp3
      from (by decide)]
    rw [show underlyingOf wC5 "P" "A" = GoType.structLit "a0" from (by decide)]
    rw [show stpc.heap.length = 4 from rfl]
    rw [show (1 + 1 : Nat) = 2 from rfl]
    rw [eAlit]
    decide
  have eFieldA : processField cfgC5 wC5 pkgC5 2 "P.C" fA5 1 stpc = stC2 := by
    rw [processField_some_eq cfgC5 wC5 pkgC5 2 "P.C" fA5 (GoType.named "P" "A")
      1 stpc rfl]
    rw [eA]
    decide
  have eClit : processType cfgC5 wC5 pkgC5 (some 2) (.structLit "c0") 1 stp2 =
      (none, stC2) := by
    rw [processType_struct_eq cfgC5 wC5 pkgC5 "c0" 2 1 stp2 nC5a infoC5
      (by decide) (by decide) (by decide) (by decide)]
    rw [show (setNode (pushNode stp2
        (attachDoc cfgC5 pkgC5 (mkType pkgC5 (GoType.structLit "c0")))) 2
        (fun n => { n with kind := Kind.Struct })) = stpc from (by decide)]
    rw [show typeKey nC5a = "P.C" from (by decide)]
    rw [show infoC5.fields = [fA5] from rfl]
    rw [processStructFields_cons_eq, processStructFields_nil_eq]
    rw [eFieldA]
  have eC : processType cfgC5 wC5 pkgC5 none (.named "P" "C") 0 stB3 =
      (some 2, stC3) := by
    rw [processType_namedOk_eq cfgC5 wC5 pkgC5 none "P" "C" 0 stB3 pkgC5
      (by decide) (by decide) (by decide)]
    rw [show (pushNode stB3 { attachDoc cfgC5 pkgC5
        (mkType pkgC5 (GoType.named "P" "C")) with kind := Kind.Alias }) = stp2
      from (by decide)]
    rw [show underlyingOf wC5 "P" "C" = GoType.structLit "c0" from (by decide)]
    rw [show stB3.heap.length = 2 from rfl]
    rw [show (0 + 1 : Nat) = 1 from rfl]
    rw [eClit]
    decide
  have edC : ∀ s : PState, s = stB3 →
      processDecl cfgC5 wC5 pkgC5 ("g", "p") dC5 s = stFin5 := by
    intro s hs
    subst hs
    rw [processDecl_eq cfgC5 wC5 pkgC5 ("g", "p") dC5 stB3 (by decide) rfl]
    rw [show declResolve cfgC5 wC5 pkgC5 (pkgC5.path ++ "." ++ dC5.name) dC5
        stB3 = processType cfgC5 wC5 pkgC5 none (GoType.named "P" "C") 0 stB3
      from rfl]
    rw [eC]
    decide
  have eFind : findAPITypes cfgC5 wC5 {} = stFin5 := by
    show processDecl cfgC5 wC5 pkgC5 ("g", "p") dC5
      (processDecl cfgC5 wC5 pkgC5 ("g", "p") dB5 stD1) = stFin5
    rw [edB]
    exact edC stB3 rfl
  show runPost cfgC5 (inlineTypes (findAPITypes cfgC5 wC5 {})) = _
  rw [eFind]
  rfl

/-- C5 counterexample: the concrete run whose output retains type B whose
materialized References list contains address 4 — the node whose identity
`P.A` matches the exclusion pattern `excludedTypes = [P.A]` — so an excluded
type does appear in the final output, inside another node's references. -/
theorem C5_counterexample :
    runProcess cfgC5 wC5 = Except.ok ([gvOut5], stOut5) ∧
    shouldIgnoreType cfgC5 "P.A" = true ∧
    ("B", 0) ∈ gvOut5.typesM ∧
    stOut5.heap[0]?.map TypeNode.references = some [4] ∧
    stOut5.heap[4]?.map typeKey = some "P.A" :=
  ⟨runC5_eval, by decide, by decide, by decide, by decide⟩

/-- C5 witness: the amended filtering theorem applied to the concrete run at
the retained entry ("B", 0). -/
theorem C5_exclusion_witness :
    ∃ (b : Addr) (n : TypeNode), stOut5.heap[b]? = some n ∧
      shouldIgnoreType cfgC5 (typeKey n) = false ∧
      lookupA stOut5.table (typeKey n) = some 0 :=
  C5_exclusion cfgC5 wC5 [gvOut5] stOut5 gvOut5 ("B", 0) runC5_eval
    (by decide) (by decide)



/-- A world where the named type `P.T` has the literal underlying
`struct\x7bX\x7d`. -/
def wC6 : World :=
  { pkgs := [pkgB], underlying := [(("P", "T"), .structLit "X")] }

/-- The node a `*struct\x7bX\x7d` descriptor allocates: mkType trims the
leading `*`, so its name is the literal's printed form and its identity is
the literal's key `P.struct\x7bX\x7d`. -/
def nPtrP : TypeNode :=
  { id := "*struct\x7bX\x7d", name := "struct\x7bX\x7d", pkg := "P",
    kind := .Pointer }

def nPtrX : TypeNode :=
  { id := "*struct\x7bX\x7d", name := "struct\x7bX\x7d", pkg := "P",
    kind := .Struct }

def nLitX : TypeNode :=
  { id := "struct\x7bX\x7d", name := "struct\x7bX\x7d", pkg := "P" }

def stP1 : PState := { heap := [nPtrP] }

def stP2 : PState := { heap := [nPtrX, nLitX] }

/-- After resolving the pointer field: the canonical table binds the struct
literal's key to the pointer-derived node. -/
def stX1 : PState :=
  { heap := [nPtrX, nLitX], table := [("P.struct\x7bX\x7d", 0)] }

def nTalias : TypeNode := { id := "P.T", name := "T", pkg := "P", kind := .Alias }

/-- The state in which the struct-literal-with-parent call of resolving
`P.T` runs: parent is the fresh alias node at address 2. -/
def stX2 : PState :=
  { heap := [nPtrX, nLitX, nTalias], table := [("P.struct\x7bX\x7d", 0)] }

def nTfin : TypeNode :=
  { id := "P.T", name := "T", pkg := "P", kind := .Alias,
    underlying := some 0 }

def stT : PState :=
  { heap := [nPtrX, nLitX, nTfin],
    table := [("P.struct\x7bX\x7d", 0), ("P.T", 2)],
    refs := [("P.struct\x7bX\x7d", ["P.T"])] }

/-- C6 counterexample: the memo shortcut IS taken for a struct literal with a
known parent once the literal's identity is in the table.  Resolving a
`*struct\x7bX\x7d` descriptor inserts the pointer-derived node under the
literal's key `P.struct\x7bX\x7d` (conjuncts 1-2); the subsequent
struct-literal-with-parent call at parent address 2 memo-hits and returns
the existing node 0 with the state unchanged — non-null, no promotion
(conjunct 3); and resolving `type T struct\x7bX\x7d` therefore leaves T as
kind Alias with empty fields and underlying 0, never promoted to Struct
(conjuncts 4-7) — refuting the claim that the memo shortcut is not taken in
the struct-literal-with-parent case. -/
theorem C6_counterexample :
    processType cfgA wC6 pkgB none (.pointer (.structLit "X")) 0 {} =
      (some 0, stX1) ∧
    lookupA stX1.table ("P.struct\x7bX\x7d") = some 0 ∧
    processType cfgA wC6 pkgB (some 2) (.structLit "X") 1 stX2 =
      (some 0, stX2) ∧
    processType cfgA wC6 pkgB none (.named "P" "T") 0 stX1 = (some 2, stT) ∧
    stT.heap[2]?.map TypeNode.kind = some Kind.Alias ∧
    stT.heap[2]?.map TypeNode.fields = some [] ∧
    stT.heap[2]?.bind TypeNode.underlying = some 0 := by
  have eInner : processType cfgA wC6 pkgB (some 0) (.structLit "X") 1 stP1 =
      (none, stP2) := by
    rw [processType_structNoInfo_eq cfgA wC6 pkgB "X" 0 1 stP1 nPtrX
      (by decide) (by decide) (by decide) (by decide)]
    decide
  have eP : processType cfgA wC6 pkgB none (.pointer (.structLit "X")) 0 {} =
      (some 0, stX1) := by
    rw [processType_pointer_eq cfgA wC6 pkgB none (.structLit "X") 0 {}
      (by decide) (by decide)]
    rw [show (pushNode {} { attachDoc cfgA pkgB
        (mkType pkgB (GoType.pointer (GoType.structLit "X"))) with
        kind := Kind.Pointer }) = stP1 from (by decide)]
    rw [show ({} : PState).heap.length = 0 from rfl]
    rw [show (0 + 1 : Nat) = 1 from rfl]
    rw [eInner]
    decide
  have eHitX : processType cfgA wC6 pkgB (some 2) (.structLit "X") 1 stX2 =
      (some 0, stX2) :=
    processType_hit_eq cfgA wC6 pkgB (some 2) (.structLit "X") 1 stX2 0
      (by decide)
  have eNamedT : processType cfgA wC6 pkgB none (.named "P" "T") 0 stX1 =
      (some 2, stT) := by
    rw [processType_namedOk_eq cfgA wC6 pkgB none "P" "T" 0 stX1 pkgB
      (by decide) (by decide) (by decide)]
    rw [show (pushNode stX1 { attachDoc cfgA pkgB
        (mkType pkgB (GoType.named "P" "T")) with kind := Kind.Alias }) = stX2
      from (by decide)]
    rw [show underlyingOf wC6 "P" "T" = GoType.structLit "X" from (by decide)]
    rw [show stX1.heap.length = 2 from rfl]
    rw [show (0 + 1 : Nat) = 1 from rfl]
    rw [eHitX]
    decide
  exact ⟨eP, by decide, eHitX, eNamedT, by decide, by decide, by decide⟩

end CrdRefDocs
